import Mathlib

/-!
Verification of the nexus-miracle voice-AI core against its specification.

Each component the claims touch is shallowly embedded from the Python
source:

* `CB` — `app/utils/circuit_breaker.py` (`CircuitBreaker`)
* `VAD` — `app/services/vad_service.py` (`VADService.process_chunk`)
* `Audio` — `app/services/audio_service.py` (`AudioProcessor`)
* `Seq` — `app/services/audio_sequencer.py` together with CPython `heapq`
  (the semantics of `asyncio.PriorityQueue`)
* `Bus` — `app/events/event_bus.py` (`EventBus.publish`)
* `Parse` — `app/services/llm_service.py` (`LLMService._parse_response`)
* `Pipe` — `app/services/pipeline_service.py` (`PipelineService.process_turn`)
* `Phone` — `app/schemas/patients.py` / `app/crud/patients.py`

Machine floats that only carry wall-clock times are modelled as `ℚ`;
byte strings as `List (Fin 256)` or `List Nat`; exceptions as `Except`.
-/

namespace CB

/-- `CircuitState` from `circuit_breaker.py`. -/
inductive CircuitState
  | closed
  | opened
  | halfOpen
  deriving DecidableEq, Repr

/-- `CircuitBreakerConfig`: thresholds, recovery timeout, half-open cap and
the per-service fallback message dictionary. -/
structure Config where
  failureThreshold : Nat
  recoveryTimeout : ℚ
  halfOpenMaxCalls : Nat
  fallbackMessages : List (String × String)
  deriving DecidableEq, Repr

/-- State of one `CircuitBreaker` instance: `_state`, `_failure_count`,
`_success_count`, `_last_failure_time`, `_half_open_calls`. -/
structure Breaker where
  name : String
  config : Config
  state : CircuitState
  failureCount : Nat
  successCount : Nat
  lastFailureTime : ℚ
  halfOpenCalls : Nat
  deriving DecidableEq, Repr

/-- `CircuitBreaker.__init__`: fresh breaker in CLOSED with zeroed counters. -/
def Breaker.mk0 (name : String) (config : Config) : Breaker :=
  { name := name, config := config, state := .closed, failureCount := 0,
    successCount := 0, lastFailureTime := 0, halfOpenCalls := 0 }

/-- `get_fallback_message`: `fallback_messages.get(service_type, fallback_messages["default"])`. -/
def Breaker.getFallbackMessage (b : Breaker) (serviceType : String) : String :=
  match b.config.fallbackMessages.lookup serviceType with
  | some m => m
  | none => (b.config.fallbackMessages.lookup "default").getD ""

/-- The `state` property: an OPEN breaker whose recovery timeout has elapsed
since the last failure moves to HALF_OPEN with `_half_open_calls = 0`.
`now` stands for the `time.time()` read. -/
def Breaker.checkState (b : Breaker) (now : ℚ) : Breaker :=
  if b.state = .opened ∧ now - b.lastFailureTime ≥ b.config.recoveryTimeout then
    { b with state := .halfOpen, halfOpenCalls := 0 }
  else b

/-- `record_success`: in HALF_OPEN count successes and close after
`half_open_max_calls` of them; in CLOSED reset the failure counter. -/
def Breaker.recordSuccess (b : Breaker) : Breaker :=
  if b.state = .halfOpen then
    if b.successCount + 1 ≥ b.config.halfOpenMaxCalls then
      { b with state := .closed, failureCount := 0, successCount := 0 }
    else { b with successCount := b.successCount + 1 }
  else if b.state = .closed then
    { b with failureCount := 0 }
  else b

/-- `record_failure`: increment the failure counter and stamp the failure
time; a HALF_OPEN breaker re-opens, otherwise reaching the threshold opens. -/
def Breaker.recordFailure (b : Breaker) (now : ℚ) : Breaker :=
  let b' := { b with failureCount := b.failureCount + 1, lastFailureTime := now }
  if b'.state = .halfOpen then
    { b' with state := .opened, successCount := 0 }
  else if b'.failureCount ≥ b'.config.failureThreshold then
    { b' with state := .opened }
  else b'

/-- The `CircuitBreakerOpen` exception payload: service name and fallback text. -/
structure BreakerOpen where
  serviceName : String
  fallbackMessage : String
  deriving DecidableEq, Repr

/-- What `CircuitBreaker.call` can raise: `CircuitBreakerOpen`, or the
guarded function's own exception re-raised. -/
inductive CallError
  | breakerOpen (e : BreakerOpen)
  | funcError
  deriving DecidableEq, Repr

/-- Result of one `call`: whether the guarded function was invoked, the
returned value or raised exception, and the breaker afterwards. -/
structure CallResult where
  invoked : Bool
  result : Except CallError Unit
  breaker : Breaker
  deriving Repr

/-- Tail of `call` after admission: run the guarded function (`funcFails`
says whether it raises) and record the outcome. -/
def Breaker.runFunc (b : Breaker) (now : ℚ) (funcFails : Bool) : CallResult :=
  if funcFails then ⟨true, .error .funcError, b.recordFailure now⟩
  else ⟨true, .ok (), b.recordSuccess⟩

/-- `CircuitBreaker.call`: consult `state` (possibly moving to HALF_OPEN),
reject while OPEN with `CircuitBreakerOpen(name, fallback)`, cap HALF_OPEN
admissions at `half_open_max_calls`, otherwise invoke the function. -/
def Breaker.call (b : Breaker) (now : ℚ) (funcFails : Bool) : CallResult :=
  let b1 := b.checkState now
  if b1.state = .opened then
    ⟨false, .error (.breakerOpen ⟨b.name, b.getFallbackMessage b.name⟩), b1⟩
  else if b1.state = .halfOpen then
    let b2 := { b1 with halfOpenCalls := b1.halfOpenCalls + 1 }
    if b2.halfOpenCalls > b2.config.halfOpenMaxCalls then
      ⟨false, .error (.breakerOpen ⟨b.name, b.getFallbackMessage b.name⟩), b2⟩
    else b2.runFunc now funcFails
  else b1.runFunc now funcFails

/-- Run a sequence of `call`s (each list entry: does the guarded function
fail?) all at wall-clock `now`, returning the final breaker. -/
def Breaker.callSeq (b : Breaker) (now : ℚ) : List Bool → Breaker
  | [] => b
  | f :: fs => ((b.call now f).breaker.callSeq now fs)

/-- Number of calls in the sequence that invoke the guarded function while
the breaker is in HALF_OPEN at admission time. -/
def Breaker.countHalfOpenInvoked (b : Breaker) (now : ℚ) : List Bool → Nat
  | [] => 0
  | f :: fs =>
    let r := b.call now f
    (if (b.checkState now).state = .halfOpen ∧ r.invoked then 1 else 0)
      + r.breaker.countHalfOpenInvoked now fs

/-- The `CircuitBreakers.llm` instance from the source. -/
def llmBreaker : Breaker :=
  Breaker.mk0 "llm"
    { failureThreshold := 5, recoveryTimeout := 30, halfOpenMaxCalls := 3,
      fallbackMessages :=
        [("llm", "النظام مشغول، لحظة وأرجع لك"),
         ("default", "النظام مشغول، لحظة وأرجع لك")] }

end CB

namespace VAD

/-- `VADEvent` from `vad_service.py`. -/
inductive VADEvent
  | speechStart
  | speechContinue
  | speechEnd
  | silence
  deriving DecidableEq, Repr

/-- VAD configuration: `_threshold` (`vad_threshold`) and `_min_silence_ms`
(`vad_min_silence_ms`); the sample rate is hard-coded to 16000 in source. -/
structure Config where
  threshold : ℚ
  minSilenceMs : Nat
  deriving DecidableEq, Repr

/-- `_sample_rate = 16000`. -/
def sampleRate : Nat := 16000

/-- The mutable tracking state of `VADService`: `_is_speaking`,
`_speech_start_sample`, `_silence_samples`, `_speech_samples`,
`_total_samples_processed`. -/
structure State where
  isSpeaking : Bool
  speechStartSample : Nat
  silenceSamples : Nat
  speechSamples : Nat
  totalSamplesProcessed : Nat
  deriving DecidableEq, Repr

/-- `reset()` / freshly constructed service: everything zeroed. -/
def State.initial : State :=
  { isSpeaking := false, speechStartSample := 0, silenceSamples := 0,
    speechSamples := 0, totalSamplesProcessed := 0 }

/-- One audio chunk as `process_chunk` sees it: its sample count
(`len(audio_float)`) and the speech probability `_get_speech_probability`
returned for it. -/
structure Chunk where
  speechProb : ℚ
  samples : Nat
  deriving DecidableEq, Repr

/-- `VADService.process_chunk`, lines 144–198: classify the chunk by
`speech_prob >= threshold` and run the explicit state machine. -/
def processChunk (cfg : Config) (s : State) (c : Chunk) : VADEvent × State :=
  let isSpeech := c.speechProb ≥ cfg.threshold
  let s := { s with totalSamplesProcessed := s.totalSamplesProcessed + c.samples }
  if isSpeech then
    let s := { s with speechSamples := s.speechSamples + c.samples,
                      silenceSamples := 0 }
    if ¬ s.isSpeaking then
      (.speechStart,
       { s with isSpeaking := true,
                speechStartSample := s.totalSamplesProcessed })
    else (.speechContinue, s)
  else
    let s := { s with silenceSamples := s.silenceSamples + c.samples }
    if s.isSpeaking then
      if (s.silenceSamples : ℚ) / (sampleRate : ℚ) * 1000 ≥ (cfg.minSilenceMs : ℚ) then
        (.speechEnd, { s with isSpeaking := false, speechSamples := 0 })
      else (.speechContinue, s)
    else (.silence, s)

/-- Feed a chunk list through `process_chunk`, collecting the events. -/
def run (cfg : Config) (s : State) : List Chunk → List VADEvent × State
  | [] => ([], s)
  | c :: cs =>
    let (e, s') := processChunk cfg s c
    let (es, s'') := run cfg s' cs
    (e :: es, s'')

/-- The utterance-boundary events of a stream. -/
def boundary (l : List VADEvent) : List VADEvent :=
  l.filter (fun e => e = .speechStart ∨ e = .speechEnd)

/-- `StartEndOk speaking l`: the boundary-event list `l` is a strict
alternation, expecting `SPEECH_END` next when `speaking` and
`SPEECH_START` next otherwise. -/
inductive StartEndOk : Bool → List VADEvent → Prop
  | nil (b : Bool) : StartEndOk b []
  | start {l : List VADEvent} : StartEndOk true l →
      StartEndOk false (.speechStart :: l)
  | stop {l : List VADEvent} : StartEndOk false l →
      StartEndOk true (.speechEnd :: l)

end VAD

namespace Audio

/-- Exceptions relevant to `AudioProcessor.ai_to_telnyx`. `valueError` is
what `np.frombuffer` raises on a buffer whose size is not a multiple of the
element size. `encodingError` stands for the `EncodingError` named by the
specification; no such exception class exists anywhere in the source — the
constructor exists only so the spec's claim can be stated. -/
inductive PyError
  | valueError
  | encodingError
  deriving DecidableEq, Repr

/-- Reassemble one little-endian signed 16-bit sample from two bytes
(`np.frombuffer(_, dtype=np.int16)`). -/
def toInt16 (lo hi : Nat) : Int :=
  let u := lo % 256 + 256 * (hi % 256)
  if u < 32768 then (u : Int) else (u : Int) - 65536

/-- Decode a little-endian byte string into int16 samples. The final case
is unreachable for even-length inputs. -/
def bytesToInt16 : List Nat → List Int
  | [] => []
  | lo :: hi :: rest => toInt16 lo hi :: bytesToInt16 rest
  | [_] => []

/-- `seg_uend` from CPython `Modules/audioop.c`. -/
def segUend : List Int := [0x3F, 0x7F, 0xFF, 0x1FF, 0x3FF, 0x7FF, 0xFFF, 0x1FFF]

/-- `search` from `audioop.c`: index of the first table entry `≥ val`,
or the table size when none is. -/
def tableSearch (val : Int) : List Int → Nat
  | [] => 0
  | t :: ts => if val ≤ t then 0 else tableSearch val ts + 1

/-- `st_14linear2ulaw` from `audioop.c` (BIAS `0x84`, CLIP `8159`):
μ-law-encode one 14-bit linear sample. -/
def st14linear2ulaw (pcmVal : Int) : Nat :=
  let vm := if pcmVal < 0 then (-pcmVal, 0x7F) else (pcmVal, 0xFF)
  let v := if vm.1 > 8159 then 8159 else vm.1
  let v := v + (0x84 / 4)
  let seg := tableSearch v segUend
  if seg ≥ 8 then Nat.xor 0x7F vm.2
  else Nat.xor ((seg <<< 4) ||| ((v.toNat >>> (seg + 1)) &&& 0xF)) vm.2

/-- `audioop.lin2ulaw(_, 2)`: each 16-bit sample is arithmetically shifted
right by two (`GETSAMPLE32(..) >> 18`, i.e. floor division by 4) and fed to
`st_14linear2ulaw`. -/
def lin2ulaw (samples : List Int) : List Nat :=
  samples.map fun s => st14linear2ulaw (Int.fdiv s 4)

/-- `AudioProcessor.pcm_to_ulaw` on an int16 array (the dtype produced by
`resample` from int16 input): serialize to bytes and μ-law encode. -/
def pcmToUlaw (samples : List Int) : List Nat :=
  lin2ulaw samples

/-- `AudioProcessor.ai_to_telnyx`. `np.frombuffer` raises `ValueError`
when the byte length is not a multiple of 2; otherwise the samples are
resampled 16 kHz → 8 kHz and μ-law encoded. The resampler
(`scipy.signal.resample_poly`, floating point) is abstracted as the
function argument `resample`. -/
def aiToTelnyx (resample : List Int → List Int) (pcm16k : List Nat) :
    Except PyError (List Nat) :=
  if pcm16k.length % 2 ≠ 0 then .error .valueError
  else .ok (pcmToUlaw (resample (bytesToInt16 pcm16k)))

end Audio

namespace Phone

/-- `PatientCreate.validate_saudi_phone` from `app/schemas/patients.py`:
strip spaces and hyphens, then accept `+966` + 9 further characters
unchanged, or rewrite a 10-character `05…` number to `+966` + its tail. -/
def validateSaudiPhone (v : List Char) : Except String (List Char) :=
  let v := v.filter fun c => c ≠ ' ' ∧ c ≠ '-'
  if "+966".toList.isPrefixOf v then
    if v.length = 13 then .ok v
    else .error "Phone must be +966 followed by 9 digits"
  else if "05".toList.isPrefixOf v then
    if v.length = 10 then .ok ("+966".toList ++ v.drop 1)
    else .error "Phone must be 05 followed by 8 digits"
  else .error "Phone must start with +966 or 05"

/-- The inline normalization both `get_patient_by_phone` and
`create_patient` apply in `app/crud/patients.py`:
`if phone.startswith("05"): phone = "+966" + phone[1:]`. -/
def crudNormalize (phone : List Char) : List Char :=
  if "05".toList.isPrefixOf phone then "+966".toList ++ phone.drop 1
  else phone

/-- A stored patient row, reduced to the columns the phone lookup uses. -/
structure PatientRow where
  phone : List Char
  isDeleted : Bool
  deriving DecidableEq, Repr

/-- `get_patient_by_phone`: normalize, then return the first non-deleted
row whose phone equals the normalized number. -/
def getPatientByPhone (db : List PatientRow) (phone : List Char) :
    Option PatientRow :=
  let phone := crudNormalize phone
  db.find? fun r => r.phone = phone ∧ r.isDeleted = false

/-- `create_patient`, reduced to the phone column it stores: the row is
inserted with the normalized number. -/
def createPatientPhone (phone : List Char) : List Char :=
  crudNormalize phone

end Phone

namespace Bus

/-- An event-bus event, reduced to its type tag and an opaque payload
(`data`; timestamps and correlation ids carry no weight in the claims). -/
structure Event where
  type : String
  payload : String
  deriving DecidableEq, Repr

/-- A subscriber handler: it either returns or raises (message). -/
def Handler : Type := Event → Except String Unit

/-- What one dispatch records about a handler. -/
inductive Outcome
  | ok
  | caught (msg : String)
  deriving DecidableEq, Repr

/-- `EventBus._safe_call`: run the handler under `try/except`; an exception
is logged and swallowed, so dispatch itself never raises. -/
def safeCall (h : Handler) (e : Event) : Except String Outcome :=
  match h e with
  | .ok _ => .ok .ok
  | .error msg => .ok (.caught msg)

/-- Dispatch the event to every handler in order, in the exception monad:
a handler exception escaping `safeCall` would abort the remaining
handlers here, which is exactly what the isolation claim rules out. -/
def dispatchAll (hs : List Handler) (e : Event) : Except String (List Outcome) :=
  match hs with
  | [] => .ok []
  | h :: t => do
    let r ← safeCall h e
    let rest ← dispatchAll t e
    pure (r :: rest)

/-- The bus state `publish` touches: the subscriber table and the event
history with its `_max_history = 100` bound. -/
structure BusState where
  subscribers : List (String × List Handler)
  history : List Event
  maxHistory : Nat

/-- `EventBus.publish`: append to history, evict the oldest entry when the
bound is exceeded, then dispatch to the subscribers of the event type. -/
def publish (bus : BusState) (e : Event) : BusState × Except String (List Outcome) :=
  let hist := bus.history ++ [e]
  let hist := if hist.length > bus.maxHistory then hist.drop 1 else hist
  let handlers := (bus.subscribers.lookup e.type).getD []
  ({ bus with history := hist }, dispatchAll handlers e)

end Bus

namespace Seq

/-- `AudioSegment` from `audio_sequencer.py`. `SegmentPriority` is an int
enum (LOW 0, NORMAL 1, HIGH 2, CRITICAL 3), carried here as the `Nat`
value. -/
structure Segment where
  audio : List Nat
  speaker : String
  priority : Nat
  segmentId : String
  text : String
  deriving DecidableEq, Repr

instance : Inhabited Segment := ⟨⟨[], "", 0, "", ""⟩⟩

/-- `AudioSegment.__lt__`: `self.priority > other.priority`, so the
min-heap of `asyncio.PriorityQueue` dequeues the highest priority first. -/
def segLt (a b : Segment) : Bool := b.priority < a.priority

/-- CPython `heapq._siftdown` after reading `newitem = heap[pos]`: walk
`pos` toward `startpos`, pulling parents down while `newitem` compares
below them, then drop `newitem` in place. -/
def siftdown (lt : Segment → Segment → Bool) (newitem : Segment)
    (heap : List Segment) (startpos pos : Nat) : List Segment :=
  if h : startpos < pos then
    if lt newitem (heap.getD ((pos - 1) / 2) default) then
      siftdown lt newitem (heap.set pos (heap.getD ((pos - 1) / 2) default))
        startpos ((pos - 1) / 2)
    else heap.set pos newitem
  else heap.set pos newitem
termination_by pos
decreasing_by
  exact Nat.lt_of_le_of_lt (Nat.div_le_self _ _) (Nat.sub_lt (Nat.lt_of_le_of_lt (Nat.zero_le _) h) one_pos)

/-- The inner `childpos` computation of `heapq._siftup`: the right child
when it exists and the left does not compare below it, else the left. -/
def chooseChild (lt : Segment → Segment → Bool) (heap : List Segment)
    (pos : Nat) : Nat :=
  if 2 * pos + 2 < heap.length ∧
      ¬ lt (heap.getD (2 * pos + 1) default) (heap.getD (2 * pos + 2) default) then
    2 * pos + 2
  else 2 * pos + 1

/-- CPython `heapq._siftup`: move the hole at `pos` down along the
smaller-child path to a leaf, park `newitem` there, then `_siftdown`. -/
def siftup (lt : Segment → Segment → Bool) (newitem : Segment)
    (heap : List Segment) (startpos pos : Nat) : List Segment :=
  if h : 2 * pos + 1 < heap.length then
    siftup lt newitem (heap.set pos (heap.getD (chooseChild lt heap pos) default))
      startpos (chooseChild lt heap pos)
  else siftdown lt newitem (heap.set pos newitem) startpos pos
termination_by heap.length - pos
decreasing_by
  simp only [List.length_set, chooseChild]
  split <;> omega

/-- `heapq.heappush`: append, then sift the new item toward the root. -/
def heappush (lt : Segment → Segment → Bool) (heap : List Segment)
    (item : Segment) : List Segment :=
  siftdown lt item (heap ++ [item]) 0 heap.length

/-- `heapq.heappop`: pop the last element; if the heap is still nonempty,
return the root, move the last element there and sift it down. -/
def heappop (lt : Segment → Segment → Bool) (heap : List Segment) :
    Option (Segment × List Segment) :=
  match heap.getLast? with
  | none => none
  | some lastelt =>
    let rest := heap.dropLast
    if rest.isEmpty then some (lastelt, [])
    else some (rest.headD lastelt, siftup lt lastelt (rest.set 0 lastelt) 0 0)

/-- Push a whole list in order (`enqueue` of each segment). -/
def pushAll (lt : Segment → Segment → Bool) (heap : List Segment)
    (items : List Segment) : List Segment :=
  items.foldl (heappush lt) heap

/-- Pop until empty, fuelled by the heap size. -/
def popAllFuel (lt : Segment → Segment → Bool) : Nat → List Segment → List Segment
  | 0, _ => []
  | fuel + 1, heap =>
    match heappop lt heap with
    | none => []
    | some (x, h') => x :: popAllFuel lt fuel h'

/-- The dequeue order of `play_sequence` run to completion: repeatedly
`await self._queue.get()` until the queue is empty. -/
def popAll (lt : Segment → Segment → Bool) (heap : List Segment) : List Segment :=
  popAllFuel lt heap.length heap

/-- The order in which a fully played `play_sequence` plays the segments
of an enqueued collection: heap-pop order of the priority queue built from
the enqueue order. -/
def playOrder (items : List Segment) : List Segment :=
  popAll segLt (pushAll segLt [] items)

/-- Priority of the heap entry at index `i` (default-padded). -/
def prioD (l : List Segment) (i : Nat) : Nat :=
  (l.getD i default).priority

/-- The binary-heap invariant `heapq` maintains, under `AudioSegment`'s
inverted comparison: every child's priority is at most its parent's. -/
def HeapInv (l : List Segment) : Prop :=
  ∀ i, 0 < i → i < l.length → prioD l i ≤ prioD l ((i - 1) / 2)

/-- `c` is a heap child of `p`. -/
def ChildOf (c p : Nat) : Prop := c = 2 * p + 1 ∨ c = 2 * p + 2

/-- Bubble-up invariant: with `newitem` imagined at the hole `pos`, every
edge holds except possibly the hole's own parent edge. -/
def HoleInv (heap : List Segment) (pos : Nat) (newitem : Segment) : Prop :=
  ∀ i, 0 < i → i < heap.length → i ≠ pos →
    prioD (heap.set pos newitem) i ≤ prioD (heap.set pos newitem) ((i - 1) / 2)

/-- Skip-level condition: the hole's children are dominated by the hole's
parent. -/
def SkipInv (heap : List Segment) (pos : Nat) : Prop :=
  ∀ c, ChildOf c pos → c < heap.length → 0 < pos →
    prioD heap c ≤ prioD heap ((pos - 1) / 2)

/-- Hole-descend invariant for `_siftup`: every edge not incident to the
hole holds, and the hole's children are dominated by the hole's parent. -/
def DescendInv (heap : List Segment) (pos : Nat) : Prop :=
  (∀ i, 0 < i → i < heap.length → i ≠ pos → ¬ ChildOf i pos →
    prioD heap i ≤ prioD heap ((i - 1) / 2)) ∧ SkipInv heap pos

/-- `AudioSequencer.add_segment`: the stored segment, given the running
segment counter (`segment_id = f"seg_<n>"`, text truncated to 50). -/
def mkSegment (audio : List Nat) (speaker : String) (priority : Nat)
    (text : String) (counter : Nat) : Segment :=
  { audio := audio, speaker := speaker, priority := priority,
    segmentId := "seg_" ++ toString counter,
    text := (text.toList.take 50).asString }

end Seq

namespace Parse

/-- JSON values as `json.loads` produces them (`dict` keeps insertion
order; finite numbers collapsed to `ℚ`). Python strings are sequences of
code points 0..0x10FFFF — lone surrogates included — so `str` carries raw
code points, not `Char`s. `json.loads` also accepts the non-standard
constants `NaN`, `Infinity` and `-Infinity` (its default
`parse_constant`), kept as explicit constructors. -/
inductive Json
  | null
  | bool (b : Bool)
  | num (n : ℚ)
  | nan
  | infinity (neg : Bool)
  | str (s : List Nat)
  | arr (elems : List Json)
  | obj (fields : List (List Nat × Json))
  deriving Repr, BEq

/-- JSON whitespace (`' '`, `'\t'`, `'\n'`, `'\r'`). -/
def jsonWs (c : Char) : Bool := c = ' ' ∨ c = '\t' ∨ c = '\n' ∨ c = '\r'

/-- Skip JSON whitespace. -/
def skipWs (cs : List Char) : List Char := cs.dropWhile jsonWs

/-- Python `str.strip()` whitespace (the ASCII portion). -/
def pyWs (c : Char) : Bool :=
  c = ' ' ∨ c = '\t' ∨ c = '\n' ∨ c = '\r' ∨ c = '\x0b' ∨ c = '\x0c'

/-- Python `str.strip()`. -/
def pyStrip (s : List Char) : List Char :=
  ((s.dropWhile pyWs).reverse.dropWhile pyWs).reverse

/-- Hexadecimal digit value. -/
def hexVal (c : Char) : Option Nat :=
  if '0' ≤ c ∧ c ≤ '9' then some (c.toNat - '0'.toNat)
  else if 'a' ≤ c ∧ c ≤ 'f' then some (c.toNat - 'a'.toNat + 10)
  else if 'A' ≤ c ∧ c ≤ 'F' then some (c.toNat - 'A'.toNat + 10)
  else none

/-- Four hex digits of a `\u` escape. -/
def parseHex4 : List Char → Option (Nat × List Char)
  | a :: b :: c :: d :: rest => do
    let va ← hexVal a
    let vb ← hexVal b
    let vc ← hexVal c
    let vd ← hexVal d
    some (((va * 16 + vb) * 16 + vc) * 16 + vd, rest)
  | _ => none

/-- Decimal digit value. -/
def digitVal (c : Char) : Option Nat :=
  if '0' ≤ c ∧ c ≤ '9' then some (c.toNat - '0'.toNat) else none

/-- Is a decimal digit. -/
def isDigit (c : Char) : Bool := '0' ≤ c ∧ c ≤ '9'

/-- Value of a digit run. -/
def digitsVal (ds : List Char) : Nat :=
  ds.foldl (fun acc c => acc * 10 + ((digitVal c).getD 0)) 0

/-- Body of a JSON string after the opening quote (`py_scanstring`,
strict mode: raw control characters are rejected), as code points. A
`\uXXXX` high surrogate immediately followed by `\uXXXX` with a low
surrogate combines into one astral code point (CPython's pairing rule);
a high surrogate followed by `\u` with invalid hex is a decode error;
any other lone surrogate is kept as its raw code point, exactly as
`chr(uni)` keeps it in a Python `str`. -/
def parseStringBody : Nat → List Char → Option (List Nat × List Char)
  | 0, _ => none
  | _, [] => none
  | fuel + 1, c :: rest =>
    if c = '"' then some ([], rest)
    else if c = '\\' then
      match rest with
      | [] => none
      | e :: rest2 =>
        if e = '"' then (parseStringBody fuel rest2).map fun p => ('"'.toNat :: p.1, p.2)
        else if e = '\\' then (parseStringBody fuel rest2).map fun p => ('\\'.toNat :: p.1, p.2)
        else if e = '/' then (parseStringBody fuel rest2).map fun p => ('/'.toNat :: p.1, p.2)
        else if e = 'b' then (parseStringBody fuel rest2).map fun p => (0x08 :: p.1, p.2)
        else if e = 'f' then (parseStringBody fuel rest2).map fun p => (0x0c :: p.1, p.2)
        else if e = 'n' then (parseStringBody fuel rest2).map fun p => (0x0a :: p.1, p.2)
        else if e = 'r' then (parseStringBody fuel rest2).map fun p => (0x0d :: p.1, p.2)
        else if e = 't' then (parseStringBody fuel rest2).map fun p => (0x09 :: p.1, p.2)
        else if e = 'u' then
          match parseHex4 rest2 with
          | none => none
          | some (n, r) =>
            if 0xD800 ≤ n ∧ n ≤ 0xDBFF then
              match r with
              | '\\' :: 'u' :: r2 =>
                match parseHex4 r2 with
                | none => none
                | some (n2, r3) =>
                  if 0xDC00 ≤ n2 ∧ n2 ≤ 0xDFFF then
                    (parseStringBody fuel r3).map fun p =>
                      ((0x10000 + ((n - 0xD800) * 0x400 + (n2 - 0xDC00))) :: p.1, p.2)
                  else (parseStringBody fuel r).map fun p => (n :: p.1, p.2)
              | _ => (parseStringBody fuel r).map fun p => (n :: p.1, p.2)
            else (parseStringBody fuel r).map fun p => (n :: p.1, p.2)
        else none
    else if c.toNat < 0x20 then none
    else (parseStringBody fuel rest).map fun p => (c.toNat :: p.1, p.2)

/-- JSON number per Python's `NUMBER_RE`:
`(-?(?:0|[1-9]\d*))(\.\d+)?([eE][-+]?\d+)?`. -/
def parseNumber (cs : List Char) : Option (ℚ × List Char) :=
  let (neg, cs1) := match cs with
    | '-' :: t => (true, t)
    | _ => (false, cs)
  match cs1 with
  | [] => none
  | c :: t =>
    if c = '0' ∨ (isDigit c ∧ c ≠ '0') then
      let (intDs, rest1) := if c = '0' then ([c], t) else
        (c :: t.takeWhile isDigit, t.dropWhile isDigit)
      let intVal : ℚ := (digitsVal intDs : ℚ)
      let (fracVal, rest2) := match rest1 with
        | '.' :: u =>
          let fds := u.takeWhile isDigit
          if fds.isEmpty then ((0 : ℚ), rest1)
          else ((digitsVal fds : ℚ) / ((10 : ℚ) ^ fds.length), u.dropWhile isDigit)
        | _ => ((0 : ℚ), rest1)
      let (expVal, rest3) : Int × List Char := match rest2 with
        | e :: u =>
          if e = 'e' ∨ e = 'E' then
            let (esign, u2) : Int × List Char := match u with
              | '+' :: w => (1, w)
              | '-' :: w => (-1, w)
              | _ => (1, u)
            let eds := u2.takeWhile isDigit
            if eds.isEmpty then ((0 : Int), rest2)
            else (esign * (digitsVal eds : Int), u2.dropWhile isDigit)
          else ((0 : Int), rest2)
        | _ => ((0 : Int), rest2)
      let mag : ℚ := (intVal + fracVal) * (10 : ℚ) ^ expVal
      some (if neg then -mag else mag, rest3)
    else none

mutual

/-- One JSON value (`scan_once`). -/
def parseValue : Nat → List Char → Option (Json × List Char)
  | 0, _ => none
  | _, [] => none
  | fuel + 1, c :: rest =>
    if c = '"' then
      (parseStringBody (fuel + 1) rest).map fun p => (.str p.1, p.2)
    else if c = '{' then
      parseMembers fuel (skipWs rest) true
    else if c = '[' then
      parseElems fuel (skipWs rest) true
    else if c = 't' then
      match rest with
      | 'r' :: 'u' :: 'e' :: r => some (.bool true, r)
      | _ => none
    else if c = 'f' then
      match rest with
      | 'a' :: 'l' :: 's' :: 'e' :: r => some (.bool false, r)
      | _ => none
    else if c = 'n' then
      match rest with
      | 'u' :: 'l' :: 'l' :: r => some (.null, r)
      | _ => none
    else
      match parseNumber (c :: rest) with
      | some p => some (.num p.1, p.2)
      | none =>
        if c = 'N' then
          match rest with
          | 'a' :: 'N' :: r => some (.nan, r)
          | _ => none
        else if c = 'I' then
          match rest with
          | 'n' :: 'f' :: 'i' :: 'n' :: 'i' :: 't' :: 'y' :: r =>
            some (.infinity false, r)
          | _ => none
        else if c = '-' then
          match rest with
          | 'I' :: 'n' :: 'f' :: 'i' :: 'n' :: 'i' :: 't' :: 'y' :: r =>
            some (.infinity true, r)
          | _ => none
        else none

/-- Object members after `{` (whitespace already skipped); `first` marks
whether a `}` may close immediately. -/
def parseMembers : Nat → List Char → Bool → Option (Json × List Char)
  | 0, _, _ => none
  | _, [], _ => none
  | fuel + 1, c :: rest, first =>
    if c = '}' ∧ first then some (.obj [], rest)
    else if c = '"' then
      match parseStringBody (fuel + 1) rest with
      | none => none
      | some (key, r1) =>
        match skipWs r1 with
        | ':' :: r2 =>
          match parseValue fuel (skipWs r2) with
          | none => none
          | some (v, r3) =>
            match skipWs r3 with
            | ',' :: r4 =>
              match parseMembers fuel (skipWs r4) false with
              | some (.obj fs, r5) => some (.obj ((key, v) :: fs), r5)
              | _ => none
            | '}' :: r4 => some (.obj [(key, v)], r4)
            | _ => none
        | _ => none
    else none

/-- Array elements after `[` (whitespace already skipped). -/
def parseElems : Nat → List Char → Bool → Option (Json × List Char)
  | 0, _, _ => none
  | _, [], _ => none
  | fuel + 1, c :: rest, first =>
    if c = ']' ∧ first then some (.arr [], rest)
    else
      match parseValue fuel (c :: rest) with
      | none => none
      | some (v, r1) =>
        match skipWs r1 with
        | ',' :: r2 =>
          match parseElems fuel (skipWs r2) false with
          | some (.arr vs, r3) => some (.arr (v :: vs), r3)
          | _ => none
        | ']' :: r2 => some (.arr [v], r2)
        | _ => none

end

/-- `json.loads`: skip surrounding whitespace and require the whole input
to be one value. `none` is `JSONDecodeError`. The fuel is ample: each
nesting level and each element costs one unit. -/
def jsonLoads (s : List Char) : Option Json :=
  match parseValue (2 * s.length + 2) (skipWs s) with
  | some (v, rest) => if (skipWs rest).isEmpty then some v else none
  | none => none

/-- `re.search(r'\[[\s\S]*?\]', response_text)`: the leftmost `[`, then
the shortest stretch to a `]`. `none` when no `[` is followed by a `]`. -/
def extractBracket (s : List Char) : Option (List Char) :=
  match s.dropWhile (· ≠ '[') with
  | [] => none
  | _ :: rest =>
    let inner := rest.takeWhile (· ≠ ']')
    if inner.length = rest.length then none
    else some ('[' :: (inner ++ [']']))

/-- `ResponseSegment` (pydantic model in `llm_service.py`). -/
structure ResponseSegment where
  speaker : String
  text : String
  emotion : String
  action : String
  deriving DecidableEq, Repr

/-- Exceptions `_parse_response` can let escape — `TypeError` from
iterating a non-iterable JSON scalar, and pydantic's `ValidationError` —
plus the explicit boundary of this embedding: `loneSurrogate` marks a
segment the program accepts whose `str` field holds a lone-surrogate code
point, which Lean's `String` cannot carry. No theorem covers
`loneSurrogate` inputs; it is a model marker, not a Python exception. -/
inductive ParseExn
  | typeError
  | validationError
  | loneSurrogate
  deriving DecidableEq, Repr

/-- Python `dict.get` on a parsed JSON object: later duplicate keys win. -/
def pyGet (fields : List (List Nat × Json)) (k : String) : Option Json :=
  fields.reverse.lookup (k.toList.map Char.toNat)

/-- A parsed Python `str` as a Lean `String`, when every code point is a
Unicode scalar value; `none` when a lone surrogate makes it
unrepresentable. -/
def codesString (l : List Nat) : Option String :=
  if l.all fun n => decide n.isValidChar then
    some ((l.map Char.ofNat).asString)
  else none

/-- Build one `ResponseSegment` from a JSON object already known to have a
`"text"` member: pydantic validates `speaker` against
`Literal["sara", "nexus"]` and the other fields against `str`. -/
def segmentOfItem (fields : List (List Nat × Json)) :
    Except ParseExn ResponseSegment := do
  let speaker ← match pyGet fields "speaker" with
    | none => .ok "sara"
    | some (.str s) =>
      if s = "sara".toList.map Char.toNat then .ok "sara"
      else if s = "nexus".toList.map Char.toNat then .ok "nexus"
      else .error .validationError
    | some _ => .error .validationError
  let text ← match pyGet fields "text" with
    | some (.str t) =>
      match codesString t with
      | some str => .ok str
      | none => .error .loneSurrogate
    | _ => .error .validationError
  let emotion ← match pyGet fields "emotion" with
    | none => .ok "neutral"
    | some (.str s) =>
      match codesString s with
      | some str => .ok str
      | none => .error .loneSurrogate
    | some _ => .error .validationError
  let action ← match pyGet fields "action" with
    | none => .ok "none"
    | some (.str s) =>
      match codesString s with
      | some str => .ok str
      | none => .error .loneSurrogate
    | some _ => .error .validationError
  .ok ⟨speaker, text, emotion, action⟩

/-- The `for item in data` loop: dict items with a `"text"` member become
segments, everything else is skipped. -/
def collectSegments : List Json → Except ParseExn (List ResponseSegment)
  | [] => .ok []
  | item :: rest => do
    match item with
    | .obj fields =>
      if (pyGet fields "text").isSome then
        let seg ← segmentOfItem fields
        let tail ← collectSegments rest
        .ok (seg :: tail)
      else collectSegments rest
    | _ => collectSegments rest

/-- `LLMService._parse_response`, lines 314–351: extract the first
bracketed stretch (else the stripped input), `json.loads` it, turn dict
items into segments; an empty result falls back to one segment holding
the raw input, and a `JSONDecodeError` to one segment holding the
stripped input. Iterating a dict yields its keys and iterating a string
its characters, so both collapse to the raw-input fallback; iterating a
number, boolean, `null`, `NaN` or an infinity raises `TypeError`. -/
def parseResponse (responseText : String) : Except ParseExn (List ResponseSegment) :=
  let jsonStr := match extractBracket responseText.toList with
    | some m => m
    | none => pyStrip responseText.toList
  match jsonLoads jsonStr with
  | none =>
    .ok [⟨"sara", (pyStrip responseText.toList).asString, "neutral", "none"⟩]
  | some (.arr items) =>
    match collectSegments items with
    | .error e => .error e
    | .ok [] => .ok [⟨"sara", responseText, "neutral", "none"⟩]
    | .ok segs => .ok segs
  | some (.obj _) => .ok [⟨"sara", responseText, "neutral", "none"⟩]
  | some (.str _) => .ok [⟨"sara", responseText, "neutral", "none"⟩]
  | some _ => .error .typeError

end Parse

namespace Pipe

/-- The fallback segment `LLMService.generate_response` returns when its
try-body raises (lines 195–203 of `llm_service.py`). -/
def errFallbackSegment : Parse.ResponseSegment :=
  ⟨"sara", "عذراً، حصل خطأ. هل تقدر تعيد؟", "concerned", "none"⟩

/-- `LLMService.generate_response`: produce the raw response text (the
provider call, `.error` = exception) and parse it; any exception —
including one from `_parse_response` — is swallowed into the fallback
segment list. This function never raises. -/
def generateResponse (llmRaw : Except Unit String) : List Parse.ResponseSegment :=
  match llmRaw with
  | .error _ => [errFallbackSegment]
  | .ok txt =>
    match Parse.parseResponse txt with
    | .ok segs => segs
    | .error _ => [errFallbackSegment]

/-- `CallSession`, reduced to the fields `process_turn` touches. The
audio sequencer is carried as its priority-queue heap plus the running
segment counter. -/
structure Session where
  conversationHistory : List (String × String)
  queue : List Seq.Segment
  seqCounter : Nat
  isProcessing : Bool
  totalTurns : Nat
  deriving Repr

/-- `CallSession.add_message`. -/
def Session.addMessage (s : Session) (role content : String) : Session :=
  { s with conversationHistory := s.conversationHistory ++ [(role, content)] }

/-- `AudioSequencer.add_segment` on the session's sequencer. -/
def Session.enqueue (s : Session) (audio : List Nat) (speaker : String)
    (priority : Nat) (text : String) : Session :=
  { s with
    queue := Seq.heappush Seq.segLt s.queue
      (Seq.mkSegment audio speaker priority text s.seqCounter),
    seqCounter := s.seqCounter + 1 }

/-- The environment of one turn: the outcome of each suspending call
`process_turn` makes. `tts` maps a segment text to synthesized audio or
an exception. `delayedFillerFires` says whether the 800 ms filler task
ran before being cancelled. -/
structure Env where
  isInitialized : Bool
  initFails : Bool
  asr : Except Unit String
  empathy : Option (String × Option (List Nat))
  delayedFillerFires : Bool
  searchFiller : String × Option (List Nat)
  llmRaw : Except Unit String
  tts : String → Except Unit (List Nat)

/-- The metrics dict `process_turn` returns, reduced to its
non-wall-clock entries (`asr_ms`/`llm_ms`/`tts_ms`/`total_ms` only carry
`time.time()` differences). -/
structure Metrics where
  segments : Nat
  fillerUsed : Bool
  error : Option String
  deriving DecidableEq, Repr

/-- Steps 7–8 of `process_turn`: synthesize each segment in order, enqueue
it at NORMAL priority and append it to history; a TTS exception aborts the
loop into the outer `except` (metrics gain an `error` entry, the queue is
left unplayed). Speakers reaching `Voice(...)` are always `sara`/`nexus`
because `_parse_response` validated them. -/
def ttsLoop (env : Env) (m : Metrics) (s : Session) :
    List Parse.ResponseSegment → Metrics × Session × Bool
  | [] => (m, s, true)
  | seg :: rest =>
    match env.tts seg.text with
    | .error _ => ({ m with error := some "SynthesisError" }, s, false)
    | .ok audio =>
      let s := s.enqueue audio seg.speaker 1 seg.text
      let s := s.addMessage seg.speaker seg.text
      ttsLoop env m s rest

/-- Steps 8–9 plus the `finally`: when no TTS exception aborted the turn
(`ok = true`), `play_sequence` drains the queue to completion and the
turn counter advances; either way `is_processing` is lowered. -/
def finishTurn (m : Metrics) (s : Session) (ok : Bool) :
    Metrics × Session × List Seq.Segment :=
  if ok then
    (m, { s with queue := [], totalTurns := s.totalTurns + 1,
                 isProcessing := false }, Seq.popAll Seq.segLt s.queue)
  else (m, { s with isProcessing := false }, [])

/-- `PipelineService.process_turn`. A `.error` result is a propagated
exception (possible only from the lazy `initialize()` that runs before
the `try`); otherwise the metrics, the session after the `finally`
(`is_processing = False`), and the list of segments `play_sequence`
played to completion (empty when an error path skipped step 8). -/
def processTurn (env : Env) (session : Session) :
    Except Unit (Metrics × Session × List Seq.Segment) :=
  if ¬ env.isInitialized ∧ env.initFails then .error () else
  let s := { session with isProcessing := true }
  let m : Metrics := { segments := 0, fillerUsed := false, error := none }
  match env.asr with
  | .error _ =>
    .ok ({ m with error := some "TranscriptionError" },
         { s with isProcessing := false }, [])
  | .ok text =>
    if (Parse.pyStrip text.toList).isEmpty then
      .ok (m, { s with isProcessing := false }, [])
    else
      let s := s.addMessage "user" text
      let em := match env.empathy with
        | some (phrase, some audio) => (s.enqueue audio "sara" 2 phrase, true)
        | _ => (s, false)
      let s := em.1
      let m := { m with fillerUsed := em.2 }
      let s := if env.delayedFillerFires then
          match env.searchFiller with
          | (phrase, some audio) => s.enqueue audio "sara" 0 phrase
          | _ => s
        else s
      let segs := generateResponse env.llmRaw
      let m := { m with segments := segs.length }
      let r := ttsLoop env m s segs
      .ok (finishTurn r.1 r.2.1 r.2.2)

end Pipe

/-! ## Theorems -/

namespace Phone

/-- The character filter of the validator. -/
lemma filter_eq_self_of_clean (r : List Char)
    (h : ∀ c ∈ r, c ≠ ' ' ∧ c ≠ '-') :
    (r.filter fun c => c ≠ ' ' ∧ c ≠ '-') = r := by
  rw [List.filter_eq_self]
  intro a ha
  simpa using h a ha

/-- Any accepted output is clean, starts with `+966` and has length 13. -/
lemma validate_ok_shape (p r : List Char)
    (h : validateSaudiPhone p = .ok r) :
    (∀ c ∈ r, c ≠ ' ' ∧ c ≠ '-') ∧
      "+966".toList.isPrefixOf r ∧ r.length = 13 := by
  simp only [validateSaudiPhone] at h
  split at h
  case isTrue h1 =>
    split at h
    case isTrue h2 =>
      injection h with h
      subst h
      refine ⟨?_, h1, h2⟩
      intro c hc
      simpa using List.of_mem_filter hc
    case isFalse h2 => exact absurd h (by simp)
  case isFalse h1 =>
    split at h
    case isTrue h2 =>
      split at h
      case isTrue h3 =>
        injection h with h
        subst h
        refine ⟨?_, ?_, ?_⟩
        · intro c hc
          rcases List.mem_append.mp hc with hc | hc
          · fin_cases hc <;> simp
          · have hm : c ∈ p.filter (fun c => c ≠ ' ' ∧ c ≠ '-') :=
              (List.drop_subset _ _) hc
            simpa using List.of_mem_filter hm
        · rw [List.isPrefixOf_iff_prefix]
          exact ⟨_, rfl⟩
        · simp only [List.length_append, List.length_drop, h3]
          rfl
      case isFalse h3 => exact absurd h (by simp)
    case isFalse h2 => exact absurd h (by simp)


/-- C9. Phone normalization is idempotent: a validator-accepted number is a
fixed point of the validator; an accepted `05…` number is rewritten to
`+966` + its digits after the leading `0`; and the CRUD layer applies the
same rewrite to its argument before the lookup predicate runs and before
the stored row's phone is formed. -/
theorem C9_phone_normalization :
    (∀ p r, validateSaudiPhone p = .ok r → validateSaudiPhone r = .ok r) ∧
    (∀ p r, validateSaudiPhone p = .ok r →
      "05".toList.isPrefixOf (p.filter fun c => c ≠ ' ' ∧ c ≠ '-') →
      r = "+966".toList ++ (p.filter fun c => c ≠ ' ' ∧ c ≠ '-').drop 1) ∧
    (∀ (db : List PatientRow) p, "05".toList.isPrefixOf p →
      getPatientByPhone db p =
        db.find? fun row =>
          row.phone = "+966".toList ++ p.drop 1 ∧ row.isDeleted = false) ∧
    (∀ p, "05".toList.isPrefixOf p →
      createPatientPhone p = "+966".toList ++ p.drop 1) := by
  refine ⟨?_, ?_, ?_, ?_⟩
  · intro p r h
    obtain ⟨hclean, hpre, hlen⟩ := validate_ok_shape p r h
    simp only [validateSaudiPhone, filter_eq_self_of_clean r hclean, hpre,
      if_true, hlen, if_pos]
  · intro p r h hp
    simp only [validateSaudiPhone] at h
    by_cases h1 : "+966".toList.isPrefixOf (p.filter fun c => c ≠ ' ' ∧ c ≠ '-') = true
    · exfalso
      rw [List.isPrefixOf_iff_prefix] at h1 hp
      obtain ⟨t1, e1⟩ := h1
      obtain ⟨t2, e2⟩ := hp
      rw [← e1] at e2
      simp at e2
    · rw [if_neg h1, if_pos hp] at h
      by_cases h3 : (p.filter fun c => c ≠ ' ' ∧ c ≠ '-').length = 10
      · rw [if_pos h3] at h
        injection h with h
        exact h.symm
      · rw [if_neg h3] at h
        exact absurd h (by simp)
  · intro db p hp
    have hp' : ['0', '5'] <+: p := by
      simpa [List.isPrefixOf_iff_prefix] using hp
    simp [getPatientByPhone, crudNormalize, hp']
  · intro p hp
    have hp' : ['0', '5'] <+: p := by
      simpa [List.isPrefixOf_iff_prefix] using hp
    simp [createPatientPhone, crudNormalize, hp']

/-- Witness for C9 at the concrete number `0512345678`. -/
theorem C9_phone_normalization_witness :
    validateSaudiPhone ("+966512345678".toList) = .ok ("+966512345678".toList) ∧
    ("+966512345678".toList =
      "+966".toList ++ (("0512345678".toList).filter fun c => c ≠ ' ' ∧ c ≠ '-').drop 1) ∧
    getPatientByPhone [] ("0512345678".toList) = none ∧
    createPatientPhone ("0512345678".toList) = "+966512345678".toList := by
  refine ⟨C9_phone_normalization.1 ("0512345678".toList) _ (by rfl),
    C9_phone_normalization.2.1 ("0512345678".toList) _ (by rfl) (by rfl),
    (C9_phone_normalization.2.2.1 [] ("0512345678".toList) (by rfl)).trans (by rfl),
    (C9_phone_normalization.2.2.2 ("0512345678".toList) (by rfl)).trans (by rfl)⟩

end Phone

namespace Bus

/-- C8. Publishing is exception-isolated and history-bounded: dispatch
reaches every subscriber of the event type — a raising handler is caught
by `_safe_call` and only recorded, never aborting the remaining handlers
— and whenever the history held at most `_max_history = 100` events
before a publish, it holds at most 100 events afterwards. -/
theorem C8_event_bus_isolation_and_history :
    (∀ (hs : List Handler) (e : Event),
      dispatchAll hs e =
        .ok (hs.map fun h =>
          match h e with
          | .ok _ => Outcome.ok
          | .error m => Outcome.caught m)) ∧
    (∀ (bus : BusState) (e : Event), bus.maxHistory = 100 →
      bus.history.length ≤ 100 → (publish bus e).1.history.length ≤ 100) := by
  constructor
  · intro hs e
    induction hs with
    | nil => rfl
    | cons h t ih =>
      simp only [dispatchAll, ih, List.map_cons]
      cases hhe : h e <;> simp [safeCall, hhe] <;> rfl
  · intro bus e hmax hlen
    simp only [publish, hmax]
    split
    case isTrue hgt =>
      simp only [List.length_drop, List.length_append, List.length_cons,
        List.length_nil] at hgt ⊢
      omega
    case isFalse hle =>
      simp only [List.length_append, List.length_cons, List.length_nil] at hle ⊢
      omega

/-- Witness for C8: one raising and one healthy subscriber, and a full
history of 100 events. -/
theorem C8_event_bus_witness :
    dispatchAll [fun _ => .error "boom", fun _ => .ok ()] ⟨"call.ended", ""⟩ =
      .ok [.caught "boom", .ok] ∧
    (publish ⟨[], List.replicate 100 ⟨"call.started", ""⟩, 100⟩
        ⟨"call.ended", ""⟩).1.history.length ≤ 100 :=
  ⟨(C8_event_bus_isolation_and_history.1 _ _).trans (by rfl),
   C8_event_bus_isolation_and_history.2
     ⟨[], List.replicate 100 ⟨"call.started", ""⟩, 100⟩ ⟨"call.ended", ""⟩
     rfl (by simp)⟩

end Bus

namespace Audio

/-- C6 fails as stated: on the 1-byte input `[0]`, `ai_to_telnyx` raises
`ValueError` (from `np.frombuffer`), and `ValueError` is not the
`EncodingError` the specification names — no `EncodingError` class exists
in the source at all. -/
theorem C6_encoding_error_counterexample :
    aiToTelnyx id [0] = .error .valueError ∧
      (PyError.valueError ≠ PyError.encodingError) := by
  exact ⟨rfl, by decide⟩

/-- C6 amended: a byte string whose length is not a multiple of 2 makes
`ai_to_telnyx` raise `ValueError` before producing any output, for every
resampler; sample-aligned input always yields a (complete) output. -/
theorem C6_alignment_failure (resample : List Int → List Int) (b : List Nat) :
    (b.length % 2 ≠ 0 → aiToTelnyx resample b = .error .valueError) ∧
    (b.length % 2 = 0 →
      aiToTelnyx resample b = .ok (pcmToUlaw (resample (bytesToInt16 b)))) := by
  constructor
  · intro h
    simp [aiToTelnyx, h]
  · intro h
    simp [aiToTelnyx, h]

/-- Witness for C6 at a 3-byte and a 2-byte input. -/
theorem C6_alignment_failure_witness :
    aiToTelnyx id [1, 2, 3] = .error .valueError ∧
    aiToTelnyx id [1, 2] = .ok (pcmToUlaw (bytesToInt16 [1, 2])) :=
  ⟨(C6_alignment_failure id [1, 2, 3]).1 (by decide),
   (C6_alignment_failure id [1, 2]).2 (by decide)⟩

end Audio

namespace VAD

/-- The float comparison `silence_ms >= min_silence_ms`, in integers. -/
lemma silence_cond_iff (n m : Nat) :
    ((n : ℚ) / (sampleRate : ℚ) * 1000 ≥ (m : ℚ)) ↔ m * 16000 ≤ n * 1000 := by
  rw [ge_iff_le, div_mul_eq_mul_div, le_div_iff₀ (by norm_num [sampleRate])]
  rw [sampleRate]
  constructor <;> intro h <;> exact_mod_cast h

/-- How one `process_chunk` step moves `_is_speaking`, by emitted event. -/
lemma processChunk_isSpeaking (cfg : Config) (s : State) (c : Chunk) :
    ((processChunk cfg s c).1 = .speechStart ∧ s.isSpeaking = false ∧
      (processChunk cfg s c).2.isSpeaking = true) ∨
    ((processChunk cfg s c).1 = .speechContinue ∧ s.isSpeaking = true ∧
      (processChunk cfg s c).2.isSpeaking = true) ∨
    ((processChunk cfg s c).1 = .speechEnd ∧ s.isSpeaking = true ∧
      (processChunk cfg s c).2.isSpeaking = false) ∨
    ((processChunk cfg s c).1 = .silence ∧ s.isSpeaking = false ∧
      (processChunk cfg s c).2.isSpeaking = false) := by
  simp only [processChunk]
  split_ifs with h1 h2 h3 h4 <;> simp_all

/-- `run` on a cons, componentwise. -/
lemma run_cons (cfg : Config) (s : State) (c : Chunk) (cs : List Chunk) :
    (run cfg s (c :: cs)).1 =
      (processChunk cfg s c).1 :: (run cfg (processChunk cfg s c).2 cs).1 := rfl

/-- The boundary filter keeps `SPEECH_START`. -/
lemma boundary_cons_start (l : List VADEvent) :
    boundary (.speechStart :: l) = .speechStart :: boundary l := by simp [boundary]

/-- The boundary filter keeps `SPEECH_END`. -/
lemma boundary_cons_end (l : List VADEvent) :
    boundary (.speechEnd :: l) = .speechEnd :: boundary l := by simp [boundary]

/-- The boundary filter drops `SPEECH_CONTINUE`. -/
lemma boundary_cons_continue (l : List VADEvent) :
    boundary (.speechContinue :: l) = boundary l := by simp [boundary]

/-- The boundary filter drops `SILENCE`. -/
lemma boundary_cons_silence (l : List VADEvent) :
    boundary (.silence :: l) = boundary l := by simp [boundary]

/-- Every run's boundary events alternate according to `_is_speaking`. -/
lemma run_startEndOk (cfg : Config) :
    ∀ (chunks : List Chunk) (s : State),
      StartEndOk s.isSpeaking (boundary (run cfg s chunks).1) := by
  intro chunks
  induction chunks with
  | nil =>
    intro s
    simpa [run, boundary] using StartEndOk.nil _
  | cons c cs ih =>
    intro s
    rw [run_cons]
    rcases processChunk_isSpeaking cfg s c with
      ⟨he, hs0, hs1⟩ | ⟨he, hs0, hs1⟩ | ⟨he, hs0, hs1⟩ | ⟨he, hs0, hs1⟩ <;>
      rw [he, hs0]
    · rw [boundary_cons_start]
      exact StartEndOk.start (hs1 ▸ ih (processChunk cfg s c).2)
    · rw [boundary_cons_continue]
      exact hs1 ▸ ih (processChunk cfg s c).2
    · rw [boundary_cons_end]
      exact StartEndOk.stop (hs1 ▸ ih (processChunk cfg s c).2)
    · rw [boundary_cons_silence]
      exact hs1 ▸ ih (processChunk cfg s c).2

/-- No `SPEECH_END` can occur while waiting for a `SPEECH_START`. -/
lemma count_end_zero :
    ∀ (l2 l3 : List VADEvent),
      StartEndOk false (l2 ++ .speechStart :: l3) →
      VADEvent.speechStart ∉ l2 → l2.count .speechEnd = 0 := by
  intro l2
  induction l2 with
  | nil => intro _ _ _; rfl
  | cons e rest ih =>
    intro l3 h hmem
    cases h with
    | start h' => simp at hmem

/-- Exactly one `SPEECH_END` occurs between a `SPEECH_START` and the next. -/
lemma count_end_one :
    ∀ (l2 l3 : List VADEvent),
      StartEndOk true (l2 ++ .speechStart :: l3) →
      VADEvent.speechStart ∉ l2 → l2.count .speechEnd = 1 := by
  intro l2
  induction l2 with
  | nil => intro l3 h _; cases h
  | cons e rest ih =>
    intro l3 h hmem
    cases h with
    | stop h' =>
      have : rest.count VADEvent.speechEnd = 0 :=
        count_end_zero rest l3 h' (fun hm => hmem (List.mem_cons_of_mem _ hm))
      simp [List.count_cons, this]

/-- Between any two consecutive `SPEECH_START`s of an alternating boundary
stream lies exactly one `SPEECH_END`. -/
lemma startEndOk_between :
    ∀ (l1 l2 l3 : List VADEvent) (b : Bool),
      StartEndOk b (l1 ++ .speechStart :: l2 ++ .speechStart :: l3) →
      VADEvent.speechStart ∉ l2 → l2.count .speechEnd = 1 := by
  intro l1
  induction l1 with
  | nil =>
    intro l2 l3 b h hmem
    cases h with
    | start h' => exact count_end_one l2 l3 h' hmem
  | cons e rest ih =>
    intro l2 l3 b h hmem
    cases h with
    | start h' => exact ih l2 l3 true h' hmem
    | stop h' => exact ih l2 l3 false h' hmem

end VAD

namespace VAD

/-- One silence chunk inside speech, short of the threshold, is classified
`SPEECH_CONTINUE` and only grows the silence counter. -/
lemma processChunk_short_silence (cfg : Config) (s : State) (c : Chunk)
    (hsp : s.isSpeaking = true) (hc : c.speechProb < cfg.threshold)
    (hshort : cfg.minSilenceMs * 16000 > (s.silenceSamples + c.samples) * 1000) :
    processChunk cfg s c =
      (.speechContinue,
        { s with totalSamplesProcessed := s.totalSamplesProcessed + c.samples,
                 silenceSamples := s.silenceSamples + c.samples }) := by
  have hns : ¬ (c.speechProb ≥ cfg.threshold) := not_le.mpr hc
  have hcond : ¬ (((s.silenceSamples + c.samples : Nat) : ℚ) /
      (sampleRate : ℚ) * 1000 ≥ ((cfg.minSilenceMs : Nat) : ℚ)) := by
    rw [silence_cond_iff]
    omega
  simp only [processChunk]
  split_ifs with h1 h2 h3 <;>
    first
      | rfl
      | exact absurd h1 hns
      | exact absurd h3 hcond
      | (exfalso; rw [hsp] at h2; exact h2 rfl)
      | simp_all

/-- A run of silence chunks totalling less than `min_silence_ms` while
speech is active yields only `SPEECH_CONTINUE`. -/
lemma silence_run (cfg : Config) :
    ∀ (chunks : List Chunk) (s : State),
      s.isSpeaking = true →
      (∀ c ∈ chunks, c.speechProb < cfg.threshold) →
      (s.silenceSamples + (chunks.map Chunk.samples).sum) * 1000 <
        cfg.minSilenceMs * 16000 →
      (run cfg s chunks).1 = chunks.map fun _ => VADEvent.speechContinue := by
  intro chunks
  induction chunks with
  | nil => intro s _ _ _; rfl
  | cons c cs ih =>
    intro s hsp hall hlt
    simp only [List.map_cons, List.sum_cons] at hlt
    have hpc := processChunk_short_silence cfg s c hsp (hall c (by simp))
      (by omega)
    have hrest := ih { s with
        totalSamplesProcessed := s.totalSamplesProcessed + c.samples,
        silenceSamples := s.silenceSamples + c.samples }
      (by simpa using hsp) (fun d hd => hall d (List.mem_cons_of_mem _ hd))
      (by show (s.silenceSamples + c.samples +
            (List.map Chunk.samples cs).sum) * 1000 < _
          omega)
    rw [run_cons, hpc]
    exact congrArg (List.cons VADEvent.speechContinue) hrest

end VAD

namespace VAD

/-- C3. For every chunk stream from the initial (or reset) state: between
any two consecutive `SPEECH_START` events exactly one `SPEECH_END` is
emitted; and from any speech-active state at the start of a silence run
(`_silence_samples = 0`), a run of below-threshold chunks totalling less
than `min_silence_ms` produces only `SPEECH_CONTINUE` — zero
`SPEECH_END`s. -/
theorem C3_vad_stream_invariants :
    (∀ (cfg : Config) (chunks : List Chunk) (l1 l2 l3 : List VADEvent),
      boundary (run cfg State.initial chunks).1 =
        l1 ++ .speechStart :: l2 ++ .speechStart :: l3 →
      VADEvent.speechStart ∉ l2 → l2.count .speechEnd = 1) ∧
    (∀ (cfg : Config) (chunks : List Chunk) (s : State),
      s.isSpeaking = true → s.silenceSamples = 0 →
      (∀ c ∈ chunks, c.speechProb < cfg.threshold) →
      (chunks.map Chunk.samples).sum * 1000 < cfg.minSilenceMs * 16000 →
      (run cfg s chunks).1 = chunks.map fun _ => VADEvent.speechContinue) := by
  constructor
  · intro cfg chunks l1 l2 l3 heq hmem
    have h := run_startEndOk cfg chunks State.initial
    rw [heq] at h
    exact startEndOk_between l1 l2 l3 _ h hmem
  · intro cfg chunks s hsp hsil hall hlt
    exact silence_run cfg chunks s hsp hall (by rw [hsil]; simpa using hlt)

/-- Witness for C3: a concrete stream with two utterances (for the
boundary-count part) and a concrete short silence run inside speech. -/
theorem C3_vad_stream_invariants_witness :
    ([VADEvent.speechEnd].count .speechEnd = 1) ∧
    (run ⟨1/2, 500⟩ ⟨true, 320, 0, 320, 320⟩ [⟨0, 320⟩, ⟨0, 320⟩]).1 =
      [VADEvent.speechContinue, VADEvent.speechContinue] := by
  constructor
  · exact C3_vad_stream_invariants.1 ⟨1/2, 20⟩
      [⟨1, 320⟩, ⟨0, 320⟩, ⟨1, 320⟩] [] [.speechEnd] []
      (by norm_num [run, processChunk, boundary, State.initial, sampleRate]) (by simp)
  · exact (C3_vad_stream_invariants.2 ⟨1/2, 500⟩ [⟨0, 320⟩, ⟨0, 320⟩]
      ⟨true, 320, 0, 320, 320⟩ rfl rfl (by intro c hc; fin_cases hc <;> norm_num)
      (by norm_num)).trans (by rfl)

end VAD

namespace CB

/-- `state` leaves every non-OPEN breaker unchanged. -/
lemma checkState_of_ne (b : Breaker) (now : ℚ) (h : b.state ≠ .opened) :
    b.checkState now = b := by
  simp only [Breaker.checkState, if_neg (fun hc : _ ∧ _ => h hc.1)]

/-- `state` leaves an OPEN breaker alone before the recovery timeout. -/
lemma checkState_of_lt (b : Breaker) (now : ℚ)
    (h : now - b.lastFailureTime < b.config.recoveryTimeout) :
    b.checkState now = b := by
  simp only [Breaker.checkState,
    if_neg (fun hc : _ ∧ _ => absurd hc.2 (not_le.mpr h))]

/-- One call on a CLOSED breaker. -/
lemma call_closed (b : Breaker) (now : ℚ) (f : Bool)
    (h : b.state = .closed) :
    b.call now f = ⟨true, if f then .error .funcError else .ok (),
      if f then b.recordFailure now else b.recordSuccess⟩ := by
  have hcs : b.checkState now = b :=
    checkState_of_ne b now (by rw [h]; intro hc; cases hc)
  simp only [Breaker.call, hcs, h, Breaker.runFunc]
  cases f <;> simp

/-- One call on an OPEN breaker inside its recovery window. -/
lemma call_open (b : Breaker) (now : ℚ) (f : Bool)
    (h : b.state = .opened)
    (hlt : now - b.lastFailureTime < b.config.recoveryTimeout) :
    b.call now f = ⟨false,
      .error (.breakerOpen ⟨b.name, b.getFallbackMessage b.name⟩), b⟩ := by
  have hcs : b.checkState now = b := checkState_of_lt b now hlt
  simp only [Breaker.call, hcs, h]
  rfl

/-- `record_failure` of a CLOSED breaker stays CLOSED or opens stamped
with the current time. -/
lemma recordFailure_closed (b : Breaker) (now : ℚ) (h : b.state = .closed) :
    ((b.recordFailure now).state = .closed ∨
      ((b.recordFailure now).state = .opened ∧
        (b.recordFailure now).lastFailureTime = now)) ∧
    (b.recordFailure now).config = b.config := by
  simp only [Breaker.recordFailure]
  split
  case isTrue hc => simp [h] at hc
  case isFalse hc =>
    split
    · exact ⟨Or.inr ⟨rfl, rfl⟩, rfl⟩
    · exact ⟨Or.inl h, rfl⟩

/-- A sequence of calls on a breaker that is CLOSED, or OPEN inside its
recovery window, never invokes the guarded function in HALF_OPEN. -/
lemma countHalfOpenInvoked_zero (now : ℚ) :
    ∀ (fs : List Bool) (b : Breaker),
      (b.state = .closed ∨
        (b.state = .opened ∧ now - b.lastFailureTime < b.config.recoveryTimeout)) →
      0 < b.config.recoveryTimeout →
      b.countHalfOpenInvoked now fs = 0 := by
  intro fs
  induction fs with
  | nil => intro b _ _; rfl
  | cons f rest ih =>
    intro b hq htmo
    rcases hq with h | ⟨h1, h2⟩
    · have hcs : b.checkState now = b :=
        checkState_of_ne b now (by rw [h]; intro hc; cases hc)
      simp only [Breaker.countHalfOpenInvoked, hcs, h, call_closed b now f h]
      cases f with
      | true =>
        obtain ⟨hq', hcfg⟩ := recordFailure_closed b now h
        have : (b.recordFailure now).countHalfOpenInvoked now rest = 0 := by
          apply ih
          · rcases hq' with h' | ⟨h', ht⟩
            · exact Or.inl h'
            · exact Or.inr ⟨h', by rw [ht, hcfg]; simpa using htmo⟩
          · rw [hcfg]; exact htmo
        simpa [h] using this
      | false =>
        have hs : b.recordSuccess = { b with failureCount := 0 } := by
          simp [Breaker.recordSuccess, h]
        have : b.recordSuccess.countHalfOpenInvoked now rest = 0 := by
          apply ih
          · rw [hs]; exact Or.inl h
          · rw [hs]; exact htmo
        simpa [h] using this
    · have hcall := call_open b now f h1 h2
      simp only [Breaker.countHalfOpenInvoked, checkState_of_lt b now h2, h1, hcall]
      simpa [h1] using ih b (Or.inr ⟨h1, h2⟩) htmo

end CB

namespace CB

/-- A HALF_OPEN call over the admission cap is rejected. -/
lemma call_halfOpen_reject (b : Breaker) (now : ℚ) (f : Bool)
    (h : b.state = .halfOpen)
    (hcap : b.halfOpenCalls + 1 > b.config.halfOpenMaxCalls) :
    b.call now f = ⟨false,
      .error (.breakerOpen ⟨b.name, b.getFallbackMessage b.name⟩),
      { b with halfOpenCalls := b.halfOpenCalls + 1 }⟩ := by
  have hcs := checkState_of_ne b now (by rw [h]; intro hc; cases hc)
  simp only [Breaker.call, hcs, h]
  simp [hcap]

/-- An admitted HALF_OPEN call whose function succeeds. -/
lemma call_halfOpen_success (b : Breaker) (now : ℚ)
    (h : b.state = .halfOpen)
    (hcap : b.halfOpenCalls + 1 ≤ b.config.halfOpenMaxCalls) :
    b.call now false = ⟨true, .ok (),
      if b.successCount + 1 ≥ b.config.halfOpenMaxCalls then
        { b with halfOpenCalls := b.halfOpenCalls + 1, state := .closed,
                 failureCount := 0, successCount := 0 }
      else { b with halfOpenCalls := b.halfOpenCalls + 1,
                    successCount := b.successCount + 1 }⟩ := by
  have hcs := checkState_of_ne b now (by rw [h]; intro hc; cases hc)
  simp only [Breaker.call, hcs, h]
  simp only [Breaker.runFunc, Breaker.recordSuccess]
  rw [if_neg (by simpa using Nat.not_lt.mpr hcap)]
  simp only [if_false, Bool.false_eq_true, reduceIte]
  split <;> split <;> first | omega | simp_all

/-- An admitted HALF_OPEN call whose function fails re-opens the breaker
and stamps the failure time. -/
lemma call_halfOpen_failure (b : Breaker) (now : ℚ)
    (h : b.state = .halfOpen)
    (hcap : b.halfOpenCalls + 1 ≤ b.config.halfOpenMaxCalls) :
    b.call now true = ⟨true, .error .funcError,
      { b with halfOpenCalls := b.halfOpenCalls + 1, state := .opened,
               failureCount := b.failureCount + 1, lastFailureTime := now,
               successCount := 0 }⟩ := by
  have hcs := checkState_of_ne b now (by rw [h]; intro hc; cases hc)
  simp only [Breaker.call, hcs, h]
  simp only [Breaker.runFunc, Breaker.recordFailure]
  rw [if_neg (by simpa using Nat.not_lt.mpr hcap)]
  simp [h, hcap]

end CB

namespace CB

/-- From HALF_OPEN with `s` successes banked, at most
`half_open_max_calls - s` further calls invoke the guarded function. -/
lemma countHalfOpenInvoked_le (now : ℚ) :
    ∀ (fs : List Bool) (b : Breaker),
      b.state = .halfOpen →
      (b.successCount < b.config.halfOpenMaxCalls ∨
        b.config.halfOpenMaxCalls = 0) →
      0 < b.config.recoveryTimeout →
      b.countHalfOpenInvoked now fs ≤
        b.config.halfOpenMaxCalls - b.successCount := by
  intro fs
  induction fs with
  | nil => intro b _ _ _; exact Nat.zero_le _
  | cons f rest ih =>
    intro b h hd ht
    have hcs := checkState_of_ne b now (by rw [h]; intro hc; cases hc)
    simp only [Breaker.countHalfOpenInvoked, hcs, h]
    by_cases hcap : b.halfOpenCalls + 1 > b.config.halfOpenMaxCalls
    · rw [call_halfOpen_reject b now f h hcap]
      have := ih { b with halfOpenCalls := b.halfOpenCalls + 1 } h hd ht
      simpa using this
    · have hcap' : b.halfOpenCalls + 1 ≤ b.config.halfOpenMaxCalls :=
        Nat.not_lt.mp hcap
      have hsclt : b.successCount < b.config.halfOpenMaxCalls := by
        rcases hd with hd | hd
        · exact hd
        · omega
      cases f with
      | true =>
        rw [call_halfOpen_failure b now h hcap']
        have hz : Breaker.countHalfOpenInvoked
            { b with halfOpenCalls := b.halfOpenCalls + 1, state := .opened,
                     failureCount := b.failureCount + 1, lastFailureTime := now,
                     successCount := 0 } now rest = 0 := by
          apply countHalfOpenInvoked_zero
          · exact Or.inr ⟨rfl, by simpa using ht⟩
          · simpa using ht
        simp [hz]
        omega
      | false =>
        rw [call_halfOpen_success b now h hcap']
        by_cases hcl : b.successCount + 1 ≥ b.config.halfOpenMaxCalls
        · rw [if_pos hcl]
          have hz : Breaker.countHalfOpenInvoked
              { b with halfOpenCalls := b.halfOpenCalls + 1, state := .closed,
                       failureCount := 0, successCount := 0 } now rest = 0 := by
            apply countHalfOpenInvoked_zero
            · exact Or.inl rfl
            · simpa using ht
          simp [hz]
          omega
        · rw [if_neg hcl]
          have := ih { b with halfOpenCalls := b.halfOpenCalls + 1,
                              successCount := b.successCount + 1 } h
            (Or.inl (show b.successCount + 1 < b.config.halfOpenMaxCalls by omega))
            ht
          simp at this ⊢
          omega

/-- `half_open_max_calls` consecutive successes from the HALF_OPEN entry
state close the breaker. -/
lemma halfOpen_successes_close (now : ℚ) :
    ∀ (k : Nat) (b : Breaker),
      b.state = .halfOpen → b.halfOpenCalls = b.successCount →
      b.successCount + k = b.config.halfOpenMaxCalls → 0 < k →
      (b.callSeq now (List.replicate k false)).state = .closed := by
  intro k
  induction k with
  | zero => intro b _ _ _ h0; omega
  | succ k ih =>
    intro b h hhc hsum _
    rw [List.replicate_succ, Breaker.callSeq]
    rw [call_halfOpen_success b now h (by omega)]
    by_cases hcl : b.successCount + 1 ≥ b.config.halfOpenMaxCalls
    · have hk : k = 0 := by omega
      subst hk
      rw [if_pos hcl]
      simp [Breaker.callSeq]
    · rw [if_neg hcl]
      apply ih
      · exact h
      · simpa using by omega
      · simpa using by omega
      · omega

end CB

namespace CB

/-- C1. The §4.5 circuit-breaker state machine: in CLOSED each failure
increments the counter (opening at the threshold) and each success resets
it; while OPEN inside the recovery window `call()` raises
`CircuitBreakerOpen` with the service name and fallback text and never
invokes the guarded function; once the timeout elapses the `state` read
moves the breaker to HALF_OPEN, where at most `half_open_max_calls` calls
invoke the function, any failure re-opens stamping the failure time (the
timer), and `half_open_max_calls` consecutive successes close it. -/
theorem C1_circuit_breaker_state_machine :
    (∀ (b : Breaker) (now : ℚ), b.state = .closed →
      (b.recordFailure now).failureCount = b.failureCount + 1 ∧
      (b.recordFailure now).state =
        (if b.failureCount + 1 ≥ b.config.failureThreshold then
          CircuitState.opened else .closed)) ∧
    (∀ b : Breaker, b.state = .closed →
      b.recordSuccess = { b with failureCount := 0 }) ∧
    (∀ (b : Breaker) (now : ℚ) (f : Bool), b.state = .opened →
      now - b.lastFailureTime < b.config.recoveryTimeout →
      (b.call now f).invoked = false ∧
      (b.call now f).result =
        .error (.breakerOpen ⟨b.name, b.getFallbackMessage b.name⟩)) ∧
    (∀ (b : Breaker) (now : ℚ), b.state = .opened →
      now - b.lastFailureTime ≥ b.config.recoveryTimeout →
      (b.checkState now).state = .halfOpen ∧
      (b.checkState now).halfOpenCalls = 0) ∧
    (∀ (b : Breaker) (now : ℚ) (fs : List Bool), b.state = .halfOpen →
      b.successCount = 0 → 0 < b.config.recoveryTimeout →
      b.countHalfOpenInvoked now fs ≤ b.config.halfOpenMaxCalls) ∧
    (∀ (b : Breaker) (now : ℚ), b.state = .halfOpen →
      b.halfOpenCalls + 1 ≤ b.config.halfOpenMaxCalls →
      (b.call now true).breaker.state = .opened ∧
      (b.call now true).breaker.lastFailureTime = now) ∧
    (∀ (b : Breaker) (now : ℚ), b.state = .halfOpen →
      b.successCount = 0 → b.halfOpenCalls = 0 →
      0 < b.config.halfOpenMaxCalls →
      (b.callSeq now
        (List.replicate b.config.halfOpenMaxCalls false)).state = .closed) := by
  refine ⟨?_, ?_, ?_, ?_, ?_, ?_, ?_⟩
  · intro b now h
    simp only [Breaker.recordFailure]
    split
    case isTrue hc => simp [h] at hc
    case isFalse hc =>
      constructor
      · split <;> rfl
      · split
        case isTrue ht => rfl
        case isFalse ht => exact h
  · intro b h
    simp [Breaker.recordSuccess, h]
  · intro b now f h hlt
    rw [call_open b now f h hlt]
    exact ⟨rfl, rfl⟩
  · intro b now h hge
    simp [Breaker.checkState, h, hge]
  · intro b now fs h hs ht
    have hd : b.successCount < b.config.halfOpenMaxCalls ∨
        b.config.halfOpenMaxCalls = 0 := by
      by_cases hm : b.config.halfOpenMaxCalls = 0
      · exact Or.inr hm
      · exact Or.inl (by rw [hs]; exact Nat.pos_of_ne_zero hm)
    have := countHalfOpenInvoked_le now fs b h hd ht
    simpa [hs] using this
  · intro b now h hcap
    rw [call_halfOpen_failure b now h hcap]
    exact ⟨rfl, rfl⟩
  · intro b now h hs hhoc hmax
    exact halfOpen_successes_close now b.config.halfOpenMaxCalls b h
      (by rw [hs, hhoc]) (by rw [hs]; exact Nat.zero_add _) hmax

/-- Witness for C1 on the `llm` breaker: a failure count bump in CLOSED,
the rejection with service name and Arabic fallback while OPEN, the
HALF_OPEN transition after the timeout, the admission cap, the re-open on
a half-open failure, and closure after three straight successes. -/
theorem C1_circuit_breaker_witness :
    (llmBreaker.recordFailure 5).failureCount = 0 + 1 ∧
    (({ llmBreaker with state := .opened, lastFailureTime := 100 } :
        Breaker).call 110 false).result =
      .error (.breakerOpen ⟨"llm", "النظام مشغول، لحظة وأرجع لك"⟩) ∧
    (({ llmBreaker with state := .opened, lastFailureTime := 100 } :
        Breaker).checkState 200).state = .halfOpen ∧
    ({ llmBreaker with state := .halfOpen } :
        Breaker).countHalfOpenInvoked 7 [false, false, false, false] ≤ 3 ∧
    (({ llmBreaker with state := .halfOpen } : Breaker).call 7 true).breaker.state
      = .opened ∧
    (({ llmBreaker with state := .halfOpen } : Breaker).callSeq 7
      (List.replicate 3 false)).state = .closed := by
  refine ⟨(C1_circuit_breaker_state_machine.1 llmBreaker 5 rfl).1, ?_, ?_, ?_, ?_, ?_⟩
  · exact ((C1_circuit_breaker_state_machine.2.2.1
      { llmBreaker with state := .opened, lastFailureTime := 100 } 110 false
      rfl (by norm_num [llmBreaker, Breaker.mk0])).2).trans (by rfl)
  · exact (C1_circuit_breaker_state_machine.2.2.2.1
      { llmBreaker with state := .opened, lastFailureTime := 100 } 200
      rfl (by norm_num [llmBreaker, Breaker.mk0])).1
  · exact C1_circuit_breaker_state_machine.2.2.2.2.1
      { llmBreaker with state := .halfOpen } 7 [false, false, false, false]
      rfl rfl (by norm_num [llmBreaker, Breaker.mk0])
  · exact (C1_circuit_breaker_state_machine.2.2.2.2.2.1
      { llmBreaker with state := .halfOpen } 7 rfl (by norm_num [llmBreaker, Breaker.mk0])).1
  · exact C1_circuit_breaker_state_machine.2.2.2.2.2.2
      { llmBreaker with state := .halfOpen } 7 rfl rfl rfl
      (by norm_num [llmBreaker, Breaker.mk0])

end CB

namespace Pipe

/-- C10 fails as stated: when the service is uninitialized and the lazy
`initialize()` raises, `process_turn` propagates the exception — it runs
before the `try` — instead of returning a metrics dict. -/
theorem C10_totality_counterexample :
    processTurn
      { isInitialized := false, initFails := true, asr := .ok "hi",
        empathy := none, delayedFillerFires := false,
        searchFiller := ("", none), llmRaw := .ok "x",
        tts := fun _ => .ok [] }
      { conversationHistory := [], queue := [], seqCounter := 0,
        isProcessing := false, totalTurns := 0 } = .error () := rfl

/-- Both arms of `finishTurn` lower `is_processing`. -/
lemma finishTurn_isProcessing (m : Metrics) (s : Session) (ok : Bool) :
    (finishTurn m s ok).2.1.isProcessing = false := by
  cases ok <;> simp [finishTurn]

/-- C10 amended: whenever the service is already initialized (or lazy
initialization succeeds), `process_turn` returns a metrics dict — every
internal error is caught and reported in it — and `session.is_processing`
is `False` on every returned session. -/
theorem C10_process_turn_total (env : Env) (s : Session)
    (h : env.isInitialized = true ∨ env.initFails = false) :
    (∀ e : Unit, processTurn env s ≠ .error e) ∧
    (∀ m s' played, processTurn env s = .ok (m, s', played) →
      s'.isProcessing = false) := by
  have key : ∃ m s' played, processTurn env s = .ok (m, s', played) ∧
      s'.isProcessing = false := by
    simp only [processTurn]
    rw [if_neg (by rcases h with h | h <;> simp [h])]
    cases hasr : env.asr with
    | error e => exact ⟨_, _, _, rfl, rfl⟩
    | ok text =>
      by_cases hstrip : (Parse.pyStrip text.toList).isEmpty = true
      · simp only [hstrip, if_true]
        exact ⟨_, _, _, rfl, rfl⟩
      · simp only [hstrip, if_false]
        exact ⟨_, _, _, rfl, finishTurn_isProcessing _ _ _⟩
  obtain ⟨m, s', p, he, hip⟩ := key
  constructor
  · intro e hcontra
    rw [he] at hcontra
    cases hcontra
  · intro m2 s2 p2 h2
    rw [he] at h2
    injection h2 with h2
    have := congrArg (fun x => x.2.1.isProcessing) h2
    simpa using this.symm.trans hip

/-- Witness for C10: an initialized turn whose ASR text is empty returns
the zero metrics dict with `is_processing` lowered. -/
theorem C10_process_turn_total_witness :
    (∀ e : Unit, processTurn
      { isInitialized := true, initFails := false, asr := .ok "",
        empathy := none, delayedFillerFires := false,
        searchFiller := ("", none), llmRaw := .ok "x",
        tts := fun _ => .ok [1] }
      { conversationHistory := [], queue := [], seqCounter := 0,
        isProcessing := false, totalTurns := 0 } ≠ .error e) ∧
    ({ conversationHistory := [], queue := [], seqCounter := 0,
        isProcessing := false, totalTurns := 0 } : Session).isProcessing
      = false :=
  ⟨(C10_process_turn_total _ _ (Or.inl rfl)).1,
   (C10_process_turn_total
      { isInitialized := true, initFails := false, asr := .ok "",
        empathy := none, delayedFillerFires := false,
        searchFiller := ("", none), llmRaw := .ok "x",
        tts := fun _ => .ok [1] }
      { conversationHistory := [], queue := [], seqCounter := 0,
        isProcessing := false, totalTurns := 0 } (Or.inl rfl)).2
     { segments := 0, fillerUsed := false, error := none }
     { conversationHistory := [], queue := [], seqCounter := 0,
       isProcessing := false, totalTurns := 0 } [] rfl⟩

end Pipe

namespace Pipe

end Pipe

namespace Seq

/-- Reading back the just-written entry. -/
lemma getD_set_self {α : Type} (l : List α) (i : Nat) (a d : α)
    (h : i < l.length) : (l.set i a).getD i d = a := by
  rw [List.getD_eq_getElem?_getD, List.getElem?_set_self', List.getElem?_eq_getElem h]
  rfl

/-- Reading an untouched entry. -/
lemma getD_set_ne {α : Type} (l : List α) (i j : Nat) (a d : α)
    (h : i ≠ j) : (l.set i a).getD j d = l.getD j d := by
  rw [List.getD_eq_getElem?_getD, List.getD_eq_getElem?_getD,
    List.getElem?_set_ne h]

/-- `set` exchanges one entry, as a permutation with the old entry
appended. -/
lemma set_perm {α : Type} (d : α) :
    ∀ (l : List α) (i : Nat) (a : α), i < l.length →
      List.Perm ((l.set i a) ++ [l.getD i d]) (l ++ [a]) := by
  intro l
  induction l with
  | nil => intro i a h; cases h
  | cons x t ih =>
    intro i a h
    cases i with
    | zero =>
      simp only [List.set, List.getD_cons_zero, List.cons_append]
      exact ((List.perm_append_singleton x t).cons a).trans
        ((List.Perm.swap x a t).trans
          (((List.perm_append_singleton a t).symm).cons x))
    | succ i =>
      simp only [List.set, List.getD_cons_succ, List.cons_append]
      exact (ih i a (by simpa using h)).cons x

end Seq

namespace Seq

/-- `set` exchanges one entry, in multiset form. -/
lemma set_multiset (l : List Segment) (i : Nat) (a : Segment)
    (h : i < l.length) :
    ((l.set i a : List Segment) : Multiset Segment) + {l.getD i default} =
      (l : Multiset Segment) + {a} := by
  have hp := set_perm default l i a h
  have := Multiset.coe_eq_coe.mpr hp
  simpa [← Multiset.coe_add] using this

/-- The comparison `AudioSegment.__lt__` in terms of priorities. -/
lemma segLt_iff (a b : Segment) : segLt a b = true ↔ b.priority < a.priority := by
  simp [segLt]

/-- Priority view of a freshly written entry. -/
lemma prioD_set_self (l : List Segment) (i : Nat) (a : Segment)
    (h : i < l.length) : prioD (l.set i a) i = a.priority := by
  simp only [prioD]
  rw [getD_set_self _ _ _ _ h]

/-- Priority view of an untouched entry. -/
lemma prioD_set_ne (l : List Segment) (i j : Nat) (a : Segment)
    (h : i ≠ j) : prioD (l.set i a) j = prioD l j := by
  simp only [prioD]
  rw [getD_set_ne _ _ _ _ _ h]

/-- `_siftdown` preserves the length. -/
lemma siftdown_length (lt : Segment → Segment → Bool) (newitem : Segment) :
    ∀ (pos : Nat) (heap : List Segment) (startpos : Nat),
      (siftdown lt newitem heap startpos pos).length = heap.length := by
  intro pos
  induction pos using Nat.strong_induction_on with
  | _ pos ih =>
    intro heap startpos
    rw [siftdown]
    split_ifs with h1 h2
    · rw [ih _ (by omega), List.length_set]
    · exact List.length_set ..
    · exact List.length_set ..

/-- `_siftdown` only permutes: the result plus the overwritten hole entry
is the heap plus the new item. -/
lemma siftdown_multiset (lt : Segment → Segment → Bool) (newitem : Segment) :
    ∀ (pos : Nat) (heap : List Segment) (startpos : Nat), pos < heap.length →
      ((siftdown lt newitem heap startpos pos : List Segment) :
          Multiset Segment) + {heap.getD pos default} =
        (heap : Multiset Segment) + {newitem} := by
  intro pos
  induction pos using Nat.strong_induction_on with
  | _ pos ih =>
    intro heap startpos hlen
    rw [siftdown]
    split_ifs with h1 h2
    · have hplt : (pos - 1) / 2 < pos := by omega
      have h1' := ih _ hplt (heap.set pos (heap.getD ((pos - 1) / 2) default))
        startpos (by rw [List.length_set]; omega)
      rw [getD_set_ne _ _ _ _ _ (by omega)] at h1'
      have h2' := set_multiset heap pos (heap.getD ((pos - 1) / 2) default) hlen
      have h3 : ((siftdown lt newitem
            (heap.set pos (heap.getD ((pos - 1) / 2) default)) startpos
            ((pos - 1) / 2) : List Segment) : Multiset Segment) +
          {heap.getD pos default} + {heap.getD ((pos - 1) / 2) default} =
          (heap : Multiset Segment) + {newitem} +
            {heap.getD ((pos - 1) / 2) default} := by
        rw [add_right_comm, h1', add_right_comm, h2', add_right_comm]
      exact add_right_cancel h3
    · exact set_multiset heap pos newitem hlen
    · exact set_multiset heap pos newitem hlen

end Seq

namespace Seq

/-- Bubble-up restores the heap invariant: from a hole whose imagined
content breaks at most its own parent edge (and whose children are
dominated by its parent), `_siftdown` from `startpos = 0` yields a heap. -/
lemma siftdown_heapInv (newitem : Segment) :
    ∀ (pos : Nat) (heap : List Segment), pos < heap.length →
      HoleInv heap pos newitem → SkipInv heap pos →
      HeapInv (siftdown segLt newitem heap 0 pos) := by
  intro pos
  induction pos using Nat.strong_induction_on with
  | _ pos ih =>
    intro heap hlen hhole hskip
    rw [siftdown]
    split_ifs with h1 h2
    · -- move the parent down, recurse at the parent position
      have hplt : (pos - 1) / 2 < pos := by omega
      have hpl : (pos - 1) / 2 < heap.length := by omega
      have hpar : (heap.getD ((pos - 1) / 2) default).priority < newitem.priority :=
        (segLt_iff _ _).mp h2
      apply ih _ hplt _ (by rw [List.length_set]; omega)
      · -- HoleInv of the shifted configuration
        intro i hi0 hilen himem
        rw [List.length_set] at hilen
        by_cases hip : i = pos
        · subst hip
          rw [prioD_set_ne _ _ _ _ (by omega),
            prioD_set_self _ _ _ (by omega),
            prioD_set_self _ _ _ (by rw [List.length_set]; omega)]
          omega
        · by_cases hqpos : (i - 1) / 2 = pos
          · rw [prioD_set_ne _ _ _ _ (fun e => himem e.symm),
              prioD_set_ne _ _ _ _ (fun e => hip e.symm), hqpos,
              prioD_set_ne _ _ _ _ (by omega),
              prioD_set_self _ _ _ (by omega)]
            have := hskip i (by unfold ChildOf; omega) hilen (by omega)
            simp only [prioD] at this ⊢
            exact this
          · by_cases hqP : (i - 1) / 2 = (pos - 1) / 2
            · rw [prioD_set_ne _ _ _ _ (fun e => himem e.symm),
                prioD_set_ne _ _ _ _ (fun e => hip e.symm), hqP,
                prioD_set_self _ _ _ (by rw [List.length_set]; omega)]
              have h5 := hhole i hi0 hilen hip
              rw [prioD_set_ne _ _ _ _ (fun e => hip e.symm), hqP,
                prioD_set_ne _ _ _ _ (by omega)] at h5
              simp only [prioD] at h5 ⊢
              omega
            · rw [prioD_set_ne _ _ _ _ (fun e => himem e.symm),
                prioD_set_ne _ _ _ _ (fun e => hip e.symm),
                prioD_set_ne _ _ _ _ (fun e => hqP e.symm),
                prioD_set_ne _ _ _ _ (fun e => hqpos e.symm)]
              have h5 := hhole i hi0 hilen hip
              rw [prioD_set_ne _ _ _ _ (fun e => hip e.symm),
                prioD_set_ne _ _ _ _ (fun e => hqpos e.symm)] at h5
              exact h5
      · -- SkipInv of the shifted configuration
        intro c hc hclen hP0
        rw [List.length_set] at hclen
        have hcpos : 0 < c := by unfold ChildOf at hc; omega
        have hGne : (((pos - 1) / 2) - 1) / 2 ≠ pos := by omega
        have hParG : (heap.getD ((pos - 1) / 2) default).priority ≤
            prioD heap ((((pos - 1) / 2) - 1) / 2) := by
          have h5 := hhole ((pos - 1) / 2) hP0 hpl (by omega)
          rw [prioD_set_ne _ _ _ _ (by omega),
            prioD_set_ne _ _ _ _ (fun e => hGne e.symm)] at h5
          simpa [prioD] using h5
        by_cases hcp : c = pos
        · subst hcp
          rw [prioD_set_self _ _ _ (by omega),
            prioD_set_ne _ _ _ _ (fun e => hGne e.symm)]
          exact hParG
        · rw [prioD_set_ne _ _ _ _ (fun e => hcp e.symm),
            prioD_set_ne _ _ _ _ (fun e => hGne e.symm)]
          have h5 := hhole c hcpos hclen hcp
          have hcP : (c - 1) / 2 = (pos - 1) / 2 := by
            unfold ChildOf at hc; omega
          rw [prioD_set_ne _ _ _ _ (fun e => hcp e.symm), hcP,
            prioD_set_ne _ _ _ _ (by omega)] at h5
          simp only [prioD] at h5 hParG ⊢
          omega
    · -- stop: place the new item; its parent edge now holds
      intro i hi0 hilen
      rw [List.length_set] at hilen
      by_cases hip : i = pos
      · subst hip
        rw [prioD_set_self _ _ _ (by omega),
          prioD_set_ne _ _ _ _ (by omega)]
        have : ¬ ((heap.getD ((i - 1) / 2) default).priority < newitem.priority) := by
          intro hlt
          exact h2 ((segLt_iff _ _).mpr hlt)
        simp only [prioD]
        omega
      · exact hhole i hi0 hilen hip
    · -- pos = 0: only the (absent) parent edge of the root could break
      have hp0 : pos = 0 := by omega
      subst hp0
      intro i hi0 hilen
      rw [List.length_set] at hilen
      exact hhole i hi0 hilen (by omega)

end Seq

namespace Seq

/-- The chosen child is one of the two children. -/
lemma chooseChild_childOf (lt : Segment → Segment → Bool)
    (heap : List Segment) (pos : Nat) :
    ChildOf (chooseChild lt heap pos) pos := by
  unfold chooseChild ChildOf
  split
  · right; rfl
  · left; rfl

/-- The chosen child is in range when the left child is. -/
lemma chooseChild_lt_len (lt : Segment → Segment → Bool)
    (heap : List Segment) (pos : Nat) (h : 2 * pos + 1 < heap.length) :
    chooseChild lt heap pos < heap.length := by
  unfold chooseChild
  split
  case isTrue hc => exact hc.1
  case isFalse hc => exact h

/-- Under `AudioSegment.__lt__`, the chosen child dominates both
children. -/
lemma chooseChild_dominant (heap : List Segment) (pos : Nat)
    (h : 2 * pos + 1 < heap.length) :
    ∀ c, ChildOf c pos → c < heap.length →
      prioD heap c ≤ prioD heap (chooseChild segLt heap pos) := by
  intro c hc hclen
  unfold chooseChild
  split
  case isTrue hcond =>
    rcases hc with hc | hc <;> subst hc
    · have := hcond.2
      simp only [segLt, decide_eq_true_eq] at this
      simp only [prioD] at *
      omega
    · exact le_refl _
  case isFalse hcond =>
    rcases hc with hc | hc <;> subst hc
    · exact le_refl _
    · have hlt : segLt (heap.getD (2 * pos + 1) default)
          (heap.getD (2 * pos + 2) default) = true := by
        by_contra hn
        exact hcond ⟨hclen, by simpa using hn⟩
      simp only [segLt, decide_eq_true_eq] at hlt
      simp only [prioD] at *
      omega

/-- `_siftup` preserves the length. -/
lemma siftup_length (lt : Segment → Segment → Bool) (newitem : Segment) :
    ∀ (n : Nat) (heap : List Segment) (startpos pos : Nat),
      heap.length - pos ≤ n →
      (siftup lt newitem heap startpos pos).length = heap.length := by
  intro n
  induction n with
  | zero =>
    intro heap startpos pos h
    rw [siftup]
    split_ifs with h1
    · omega
    · rw [siftdown_length, List.length_set]
  | succ n ih =>
    intro heap startpos pos h
    rw [siftup]
    split_ifs with h1
    · have hcc := chooseChild_childOf lt heap pos
      unfold ChildOf at hcc
      rw [ih _ _ _ (by rw [List.length_set]; omega), List.length_set]
    · rw [siftdown_length, List.length_set]

/-- `_siftup` only permutes: the result plus the overwritten hole entry is
the heap plus the new item. -/
lemma siftup_multiset (lt : Segment → Segment → Bool) (newitem : Segment) :
    ∀ (n : Nat) (heap : List Segment) (startpos pos : Nat),
      heap.length - pos ≤ n → pos < heap.length →
      ((siftup lt newitem heap startpos pos : List Segment) :
          Multiset Segment) + {heap.getD pos default} =
        (heap : Multiset Segment) + {newitem} := by
  intro n
  induction n with
  | zero => intro heap startpos pos h hlen; omega
  | succ n ih =>
    intro heap startpos pos h hlen
    rw [siftup]
    split_ifs with h1
    · have hcc := chooseChild_childOf lt heap pos
      unfold ChildOf at hcc
      have hccl := chooseChild_lt_len lt heap pos h1
      have h1' := ih (heap.set pos (heap.getD (chooseChild lt heap pos) default))
        startpos (chooseChild lt heap pos)
        (by rw [List.length_set]; omega) (by rw [List.length_set]; omega)
      rw [getD_set_ne _ _ _ _ _ (by omega)] at h1'
      have h2' := set_multiset heap pos
        (heap.getD (chooseChild lt heap pos) default) hlen
      have h3 : ((siftup lt newitem
            (heap.set pos (heap.getD (chooseChild lt heap pos) default))
            startpos (chooseChild lt heap pos) : List Segment) :
            Multiset Segment) + {heap.getD pos default} +
            {heap.getD (chooseChild lt heap pos) default} =
          (heap : Multiset Segment) + {newitem} +
            {heap.getD (chooseChild lt heap pos) default} := by
        rw [add_right_comm, h1', add_right_comm, h2', add_right_comm]
      exact add_right_cancel h3
    · have h1' := siftdown_multiset lt newitem pos (heap.set pos newitem)
        startpos (by rw [List.length_set]; omega)
      rw [getD_set_self _ _ _ _ hlen] at h1'
      have hX : ((siftdown lt newitem (heap.set pos newitem) startpos pos :
            List Segment) : Multiset Segment) =
          ((heap.set pos newitem : List Segment) : Multiset Segment) :=
        add_right_cancel h1'
      rw [hX]
      exact set_multiset heap pos newitem hlen

end Seq

namespace Seq

/-- The hole-descend pass restores the heap invariant: descending the
min-path to a leaf and bubbling the new item back up yields a heap. -/
lemma siftup_heapInv (newitem : Segment) :
    ∀ (n : Nat) (heap : List Segment) (pos : Nat),
      heap.length - pos ≤ n → pos < heap.length →
      DescendInv heap pos →
      HeapInv (siftup segLt newitem heap 0 pos) := by
  intro n
  induction n with
  | zero => intro heap pos h hlen _; omega
  | succ n ih =>
    intro heap pos h hlen hdesc
    unfold DescendInv at hdesc
    obtain ⟨hedges, hskip⟩ := hdesc
    rw [siftup]
    split_ifs with h1
    · set cc := chooseChild segLt heap pos with hccdef
      have hccn : ChildOf cc pos := chooseChild_childOf segLt heap pos
      have hccb : 2 * pos + 1 ≤ cc ∧ cc ≤ 2 * pos + 2 := by
        unfold ChildOf at hccn; omega
      have hccl : cc < heap.length := chooseChild_lt_len segLt heap pos h1
      apply ih _ _ (by rw [List.length_set]; omega)
        (by rw [List.length_set]; exact hccl)
      unfold DescendInv
      constructor
      · intro i hi0 hilen hine hinc
        rw [List.length_set] at hilen
        by_cases hip : i = pos
        · subst hip
          rw [prioD_set_self _ _ _ hlen, prioD_set_ne _ _ _ _ (by omega)]
          have h5 := hskip cc hccn hccl hi0
          simp only [prioD] at h5 ⊢
          exact h5
        · by_cases hqpos : (i - 1) / 2 = pos
          · rw [prioD_set_ne _ _ _ _ (fun e => hip e.symm), hqpos,
              prioD_set_self _ _ _ hlen]
            have h5 := chooseChild_dominant heap pos h1 i
              (by unfold ChildOf; omega) hilen
            simp only [prioD, hccdef] at h5 ⊢
            exact h5
          · rw [prioD_set_ne _ _ _ _ (fun e => hip e.symm),
              prioD_set_ne _ _ _ _ (fun e => hqpos e.symm)]
            apply hedges i hi0 hilen hip
            unfold ChildOf
            omega
      · intro c hc hclen hcc0
        rw [List.length_set] at hclen
        have hcb : 2 * cc + 1 ≤ c ∧ c ≤ 2 * cc + 2 := by
          unfold ChildOf at hc; omega
        have hccp : (cc - 1) / 2 = pos := by
          unfold ChildOf at hccn; omega
        rw [prioD_set_ne _ _ _ _ (by omega), hccp,
          prioD_set_self _ _ _ hlen]
        have h5 := hedges c (by omega) hclen (by omega)
          (by unfold ChildOf; omega)
        have hcp : (c - 1) / 2 = cc := by
          unfold ChildOf at hc; omega
        rw [hcp] at h5
        simp only [prioD] at h5 ⊢
        exact h5
    · apply siftdown_heapInv newitem pos (heap.set pos newitem)
        (by rw [List.length_set]; exact hlen)
      · intro i hi0 hilen hine
        rw [List.length_set] at hilen
        rw [List.set_set]
        have hqpos : (i - 1) / 2 ≠ pos := by omega
        rw [prioD_set_ne _ _ _ _ (fun e => hine e.symm),
          prioD_set_ne _ _ _ _ (fun e => hqpos e.symm)]
        apply hedges i hi0 hilen hine
        unfold ChildOf
        omega
      · intro c hc hclen _
        rw [List.length_set] at hclen
        unfold ChildOf at hc
        omega

end Seq

namespace Seq

/-- In a heap, the root dominates every entry. -/
lemma root_max (l : List Segment) (hinv : HeapInv l) :
    ∀ i, i < l.length → prioD l i ≤ prioD l 0 := by
  intro i
  induction i using Nat.strong_induction_on with
  | _ i ih =>
    intro hlen
    by_cases hi0 : i = 0
    · subst hi0; exact le_refl _
    · have h1 := hinv i (by omega) hlen
      have h2 := ih ((i - 1) / 2) (by omega) (by omega)
      omega

/-- In a heap, the root dominates every member. -/
lemma mem_le_root (l : List Segment) (hinv : HeapInv l) :
    ∀ y ∈ l, y.priority ≤ prioD l 0 := by
  intro y hy
  obtain ⟨i, hi, hget⟩ := List.getElem_of_mem hy
  have : prioD l i = y.priority := by
    simp only [prioD]
    rw [List.getD_eq_getElem l default hi, hget]
  rw [← this]
  exact root_max l hinv i hi

/-- `heappush` keeps the heap invariant. -/
lemma heappush_heapInv (heap : List Segment) (item : Segment)
    (hinv : HeapInv heap) : HeapInv (heappush segLt heap item) := by
  unfold heappush
  apply siftdown_heapInv item heap.length (heap ++ [item]) (by simp)
  · intro i hi0 hilen hine
    rw [List.length_append, List.length_singleton] at hilen
    have hil : i < heap.length := by omega
    have hqne : (i - 1) / 2 ≠ heap.length := by omega
    rw [prioD_set_ne _ _ _ _ (fun e => hine e.symm),
      prioD_set_ne _ _ _ _ (fun e => hqne e.symm)]
    simp only [prioD]
    rw [List.getD_append _ _ _ _ hil, List.getD_append _ _ _ _ (by omega)]
    exact hinv i hi0 hil
  · intro c hc hclen _
    rw [List.length_append, List.length_singleton] at hclen
    unfold ChildOf at hc
    omega

/-- `heappush` adds exactly the new item. -/
lemma heappush_multiset (heap : List Segment) (item : Segment) :
    ((heappush segLt heap item : List Segment) : Multiset Segment) =
      (heap : Multiset Segment) + {item} := by
  unfold heappush
  have h1 := siftdown_multiset segLt item heap.length (heap ++ [item]) 0
    (by simp)
  have hgd : (heap ++ [item]).getD heap.length default = item := by
    simp [List.getD_append_right]
  rw [hgd] at h1
  have h2 := add_right_cancel h1
  rw [h2]
  rw [← Multiset.coe_add]
  rfl

/-- `heappop` on a nonempty heap: returns the root (a maximum), and the
rest is again a heap holding exactly the remaining entries. -/
lemma heappop_spec (heap : List Segment) (hne : heap ≠ [])
    (hinv : HeapInv heap) :
    ∃ x h', heappop segLt heap = some (x, h') ∧
      (h' : Multiset Segment) + {x} = (heap : Multiset Segment) ∧
      HeapInv h' ∧
      h'.length + 1 = heap.length ∧
      ∀ y ∈ heap, y.priority ≤ x.priority := by
  obtain hnil | ⟨rest, L, rfl⟩ := List.eq_nil_or_concat heap
  · exact absurd hnil hne
  simp only [List.concat_eq_append] at hne hinv ⊢
  have hlast : (rest ++ [L]).getLast? = some L := List.getLast?_concat rest
  have hdl : (rest ++ [L]).dropLast = rest := List.dropLast_concat
  by_cases hr : rest = []
  · subst hr
    refine ⟨L, [], ?_, ?_, ?_, ?_, ?_⟩
    · rfl
    · rw [← Multiset.coe_add]
      rfl
    · intro i hi0 hlen
      simp only [List.length_nil] at hlen
      omega
    · rfl
    · intro y hy
      simp only [List.nil_append, List.mem_singleton] at hy
      rw [hy]
  · have hrl : 0 < rest.length := List.length_pos.mpr hr
    have hie : rest.isEmpty = false := by
      cases rest with
      | nil => exact absurd rfl hr
      | cons a t => rfl
    have hhd : rest.headD L = rest.getD 0 default := by
      cases rest with
      | nil => exact absurd rfl hr
      | cons a t => rfl
    refine ⟨rest.headD L, siftup segLt L (rest.set 0 L) 0 0, ?_, ?_, ?_, ?_, ?_⟩
    · unfold heappop
      rw [hlast]
      simp only [hdl, hie, Bool.false_eq_true, if_false]
    · have hms := siftup_multiset segLt L ((rest.set 0 L).length)
        (rest.set 0 L) 0 0 (by omega) (by rw [List.length_set]; exact hrl)
      rw [getD_set_self _ _ _ _ hrl] at hms
      have hX := add_right_cancel hms
      rw [hhd, hX, set_multiset _ _ _ hrl, ← Multiset.coe_add]
      rfl
    · apply siftup_heapInv L ((rest.set 0 L).length) _ 0 (by omega)
        (by rw [List.length_set]; exact hrl)
      constructor
      · intro i hi0 hilen hine hinc
        rw [List.length_set] at hilen
        unfold ChildOf at hinc
        have hq1 : 1 ≤ (i - 1) / 2 := by omega
        rw [prioD_set_ne _ _ _ _ (by omega), prioD_set_ne _ _ _ _ (by omega)]
        have hil : i < (rest ++ [L]).length := by
          rw [List.length_append, List.length_singleton]
          omega
        have hpr : ∀ j, j < rest.length →
            prioD rest j = prioD (rest ++ [L]) j := by
          intro j hj
          simp only [prioD]
          rw [List.getD_append _ _ _ _ hj]
        rw [hpr i (by omega), hpr _ (by omega)]
        exact hinv i hi0 hil
      · intro c hc hclen hc0
        omega
    · rw [siftup_length _ _ ((rest.set 0 L).length) _ _ _ (by omega),
        List.length_set, List.length_append, List.length_singleton]
    · intro y hy
      have hhd2 : rest.headD L = (rest ++ [L]).getD 0 default := by
        cases rest with
        | nil => exact absurd rfl hr
        | cons a t => rfl
      rw [hhd2]
      exact mem_le_root _ hinv y hy

end Seq

namespace Seq

/-- Popping a heap to exhaustion yields its entries in non-increasing
priority order. -/
lemma popAllFuel_spec :
    ∀ (fuel : Nat) (heap : List Segment), HeapInv heap →
      heap.length ≤ fuel →
      ((popAllFuel segLt fuel heap : List Segment) : Multiset Segment) =
          (heap : Multiset Segment) ∧
        (popAllFuel segLt fuel heap).Pairwise
          (fun a b => b.priority ≤ a.priority) := by
  intro fuel
  induction fuel with
  | zero =>
    intro heap hinv hlen
    have hnil : heap = [] := List.eq_nil_of_length_eq_zero (by omega)
    subst hnil
    exact ⟨rfl, List.Pairwise.nil⟩
  | succ n ih =>
    intro heap hinv hlen
    by_cases hne : heap = []
    · subst hne
      exact ⟨rfl, List.Pairwise.nil⟩
    · obtain ⟨x, h', heq, hms, hinv', hlen', hdom⟩ := heappop_spec heap hne hinv
      have hstep : popAllFuel segLt (n + 1) heap =
          x :: popAllFuel segLt n h' := by
        rw [popAllFuel, heq]
      obtain ⟨ihms, ihpw⟩ := ih h' hinv' (by omega)
      rw [hstep]
      constructor
      · show (x ::ₘ (popAllFuel segLt n h' : Multiset Segment)) =
          (heap : Multiset Segment)
        rw [ihms, ← Multiset.singleton_add, add_comm]
        exact hms
      · rw [List.pairwise_cons]
        refine ⟨?_, ihpw⟩
        intro y hy
        have hy' : y ∈ h' := by
          have : y ∈ (popAllFuel segLt n h' : Multiset Segment) := by
            simpa using hy
          rw [ihms] at this
          simpa using this
        apply hdom
        have : y ∈ (heap : Multiset Segment) := by
          rw [← hms]
          simp [hy']
        simpa using this

/-- Enqueuing a list of items one by one keeps the heap invariant and
adds exactly those items. -/
lemma pushAll_spec :
    ∀ (items heap : List Segment), HeapInv heap →
      HeapInv (pushAll segLt heap items) ∧
      ((pushAll segLt heap items : List Segment) : Multiset Segment) =
        (heap : Multiset Segment) + (items : Multiset Segment) := by
  intro items
  induction items with
  | nil =>
    intro heap hinv
    exact ⟨hinv, by simp [pushAll]⟩
  | cons a t ih =>
    intro heap hinv
    have hstep : pushAll segLt heap (a :: t) =
        pushAll segLt (heappush segLt heap a) t := rfl
    obtain ⟨h1, h2⟩ := ih (heappush segLt heap a) (heappush_heapInv heap a hinv)
    rw [hstep]
    refine ⟨h1, ?_⟩
    rw [h2, heappush_multiset]
    show (heap : Multiset Segment) + {a} + (t : Multiset Segment) =
      (heap : Multiset Segment) + (a ::ₘ (t : Multiset Segment))
    rw [← Multiset.singleton_add]
    rw [add_assoc]

/-- The empty heap is a heap. -/
lemma heapInv_nil : HeapInv ([] : List Segment) := by
  intro i hi0 hlen
  simp only [List.length_nil] at hlen
  omega

end Seq

namespace Seq

/-- C5 counterexample: `heapq` is not stable, so four equal-priority
segments enqueued in order 0,1,2,3 are dequeued 0,2,1,3 — FIFO within a
priority is violated by `play_sequence`. -/
theorem C5_fifo_counterexample :
    ∃ s0 s1 s2 s3 : Segment,
      s0.priority = s1.priority ∧ s1.priority = s2.priority ∧
        s2.priority = s3.priority ∧
      playOrder [s0, s1, s2, s3] ≠ [s0, s1, s2, s3] := by
  refine ⟨⟨[], "sara", 5, "seg_0", ""⟩, ⟨[], "sara", 5, "seg_1", ""⟩,
    ⟨[], "sara", 5, "seg_2", ""⟩, ⟨[], "sara", 5, "seg_3", ""⟩,
    rfl, rfl, rfl, ?_⟩
  have hcalc : playOrder [⟨[], "sara", 5, "seg_0", ""⟩,
      ⟨[], "sara", 5, "seg_1", ""⟩, ⟨[], "sara", 5, "seg_2", ""⟩,
      ⟨[], "sara", 5, "seg_3", ""⟩] =
      [⟨[], "sara", 5, "seg_0", ""⟩, ⟨[], "sara", 5, "seg_2", ""⟩,
        ⟨[], "sara", 5, "seg_1", ""⟩, ⟨[], "sara", 5, "seg_3", ""⟩] := by
    simp [playOrder, popAll, pushAll, popAllFuel, heappush, heappop,
      siftdown, siftup, chooseChild, segLt, List.getD, List.set]
  rw [hcalc]
  intro hcontra
  have := List.head_eq_of_cons_eq (List.tail_eq_of_cons_eq hcontra)
  simp at this

end Seq

namespace Seq

/-- C5 (amended): for every collection of AudioSegments enqueued into the
playback sequencer and played to completion, every segment is played
exactly once and segments with higher priority are dequeued and played
before segments with lower priority (the dequeue order is non-increasing
in priority); FIFO order within a priority is, however, NOT guaranteed
(see the counterexample). -/
theorem C5_priority_playback (items : List Segment) :
    ((playOrder items : List Segment) : Multiset Segment) =
        (items : Multiset Segment) ∧
      (playOrder items).Pairwise (fun a b => b.priority ≤ a.priority) := by
  unfold playOrder popAll
  obtain ⟨hinv, hms⟩ := pushAll_spec items [] heapInv_nil
  obtain ⟨h1, h2⟩ := popAllFuel_spec (pushAll segLt [] items).length _ hinv
    (le_refl _)
  refine ⟨?_, h2⟩
  rw [h1, hms]
  show (0 : Multiset Segment) + (items : Multiset Segment) = _
  rw [zero_add]

end Seq

namespace Parse

end Parse
